import Mathlib

/-!
Verification development for the CGAL Polygon_mesh_processing border-stitching
subsystem (`stitch_borders.h`).  The halfedge mesh is shallowly embedded as a
record of finite element lists together with the adjacency accessors of the
Mesh Adjacency Provider; every routine of the source file
(`fill_pairs`, `collect_duplicated_stitchable_boundary_edges`,
`update_target_vertex`, `run_stitch_borders`, `stitch_borders_impl`,
`stitch_boundary_cycle`, `stitch_boundary_cycles`, `stitch_borders`) is
translated into an executable Lean function over that record.
-/

namespace StitchBorders

/-- Halfedge descriptors are natural numbers. -/
abbrev H := Nat
/-- Vertex descriptors are natural numbers. -/
abbrev V := Nat
/-- Face descriptors are natural numbers. -/
abbrev F := Nat
/-- Points: the Vertex Point Oracle provides a value with decidable equality
and a strict total order; we use naturals. -/
abbrev Pt := Nat

/-- A halfedge-based polygon mesh, as consumed by the stitching code: the
element lists give the live halfedges and vertices, the functions give the
adjacency accessors (`next`, `prev`, `opposite`, `target`, `face`), the
incident-halfedge references of vertices and faces, and the vertex-point map.
`hface h = none` is the border sentinel. -/
structure Mesh where
  halfedges : List H
  vertices : List V
  nextH : H → H
  prevH : H → H
  opp : H → H
  vtx : H → V
  hface : H → Option F
  vhalf : V → H
  fhalf : F → H
  point : V → Pt

/-- `target(h, pmesh)`. -/
def Mesh.target (m : Mesh) (h : H) : V := m.vtx h

/-- `source(h, pmesh) = target(opposite(h, pmesh), pmesh)`. -/
def Mesh.source (m : Mesh) (h : H) : V := m.vtx (m.opp h)

/-- `CGAL::is_border(h, pmesh)`: the incident face is the border sentinel. -/
def Mesh.is_border (m : Mesh) (h : H) : Prop := m.hface h = none

instance (m : Mesh) (h : H) : Decidable (m.is_border h) := by
  unfold Mesh.is_border; infer_instance

/-- `is_border_edge(h, pmesh)`: `h` or its opposite is a border halfedge. -/
def Mesh.is_border_edge (m : Mesh) (h : H) : Prop :=
  m.is_border h ∨ m.is_border (m.opp h)

instance (m : Mesh) (h : H) : Decidable (m.is_border_edge h) := by
  unfold Mesh.is_border_edge; infer_instance

/-- `set_target(h, v, pmesh)`. -/
def Mesh.setTarget (m : Mesh) (h : H) (v : V) : Mesh :=
  { m with vtx := fun x => if x = h then v else m.vtx x }

/-- `set_next(p, n, pmesh)`: links `next` of `p` and `prev` of `n`. -/
def Mesh.setNext (m : Mesh) (p n : H) : Mesh :=
  { m with nextH := fun x => if x = p then n else m.nextH x,
           prevH := fun x => if x = n then p else m.prevH x }

/-- `set_face(h, f, pmesh)`. -/
def Mesh.setFace (m : Mesh) (h : H) (f : Option F) : Mesh :=
  { m with hface := fun x => if x = h then f else m.hface x }

/-- `set_halfedge(v, h, pmesh)` for a vertex. -/
def Mesh.setVertexHalfedge (m : Mesh) (v : V) (h : H) : Mesh :=
  { m with vhalf := fun x => if x = v then h else m.vhalf x }

/-- `set_halfedge(f, h, pmesh)` for a face; a no-op on the border sentinel. -/
def Mesh.setFaceHalfedge (m : Mesh) (f : Option F) (h : H) : Mesh :=
  match f with
  | none => m
  | some f => { m with fhalf := fun x => if x = f then h else m.fhalf x }

/-- `remove_edge(edge(h, pmesh), pmesh)`: removes the halfedge and its
opposite. -/
def Mesh.removeEdge (m : Mesh) (h : H) : Mesh :=
  { m with halfedges := (m.halfedges.erase h).erase (m.opp h) }

/-- `remove_vertex(v, pmesh)`. -/
def Mesh.removeVertex (m : Mesh) (v : V) : Mesh :=
  { m with vertices := m.vertices.erase v }

/-- Modelled from the spec: the Mesh Adjacency Provider's restartable finite
sequence of halfedges incident to a vertex (`halfedges_around_target`), i.e.
the live halfedges whose target is `v`. -/
def Mesh.haroundTarget (m : Mesh) (v : V) : List H :=
  m.halfedges.filter (fun h => m.vtx h = v)

/-! ### Union-find

Modelled from the spec: `CGAL::Union_find` (an external collaborator of this
file) is a disjoint-set structure with merge and representative lookup; the
representative choice is arbitrary but stable within one pass.  `reg` records
the keys of `uf_handles` in insertion order. -/

/-- Union-find state: registered vertices (the `uf_handles` keys in insertion
order) and parent pointers. -/
structure UF where
  reg : List V
  parent : V → V

/-- The empty union-find (`uf_vertices` and `uf_handles` freshly created). -/
def UF.empty : UF := ⟨[], id⟩

/-- Chase parent pointers with fuel. -/
def UF.findAux (u : UF) : Nat → V → V
  | 0, v => v
  | fuel+1, v => if u.parent v = v then v else u.findAux fuel (u.parent v)

/-- Representative lookup (`*uf_vertices.find(handle)`). -/
def UF.find (u : UF) (v : V) : V := u.findAux (u.reg.length + 1) v

/-- `uf_get_handle`: register the vertex as a singleton if not yet present. -/
def UF.getHandle (u : UF) (v : V) : UF :=
  if v ∈ u.reg then u else { u with reg := u.reg ++ [v] }

/-- `uf_join_vertices`: get both handles, then unify; the representative of
the first argument's class is kept. -/
def UF.union (u : UF) (a b : V) : UF :=
  let u1 := (u.getHandle a).getHandle b
  let ra := u1.find a
  let rb := u1.find b
  if ra = rb then u1
  else { u1 with parent := fun x => if x = rb then ra else u1.parent x }

/-! ### Border Pair Collector (`fill_pairs` and
`collect_duplicated_stitchable_boundary_edges`, non-per-component mode) -/

/-- Association-list lookup by decidable key equality. -/
def alookup {α β : Type} [DecidableEq α] : List (α × β) → α → Option β
  | [], _ => none
  | (k, v) :: rest, k' => if k = k' then some v else alookup rest k'

/-- Association-list update of an existing key. -/
def aset {α β : Type} [DecidableEq α] : List (α × β) → α → β → List (α × β)
  | [], _, _ => []
  | (k, v) :: rest, k', v' =>
      if k = k' then (k, v') :: rest else (k, v) :: aset rest k' v'

/-- The canonically ordered endpoint-coordinate pair of `Less_for_halfedge`:
both orientations of a halfedge produce the same key. -/
def sortPair (a b : Pt) : Pt × Pt := if a < b then (a, b) else (b, a)

/-- The orientation-independent key of a border halfedge used to order the
`Border_halfedge_map` (`Less_for_halfedge`). -/
def hkey (m : Mesh) (h : H) : Pt × Pt :=
  sortPair (m.point (m.source h)) (m.point (m.target h))

/-- The full directional match tested by `fill_pairs` on the second
occurrence: `point(source(he)) == point(target(first))` and
`point(target(he)) == point(source(first))`. -/
def dirMatch (m : Mesh) (first second : H) : Prop :=
  m.point (m.source second) = m.point (m.target first) ∧
  m.point (m.target second) = m.point (m.source first)

instance (m : Mesh) (a b : H) : Decidable (dirMatch m a b) := by
  unfold dirMatch; infer_instance

/-- Collector state: the `Border_halfedge_map` (key, first halfedge,
multiplicity, pair id), `halfedge_pairs`, and `manifold_halfedge_pairs`. -/
structure CollectSt where
  bmap : List ((Pt × Pt) × (H × Nat × Nat))
  pairs : List (H × H)
  mani : List Bool

/-- `internal::fill_pairs`: insert the halfedge under its endpoint key; on a
second occurrence emit the pair and record whether the directional match
holds; on a third or later occurrence clear the recorded pair's manifold
flag. -/
def fill_pairs (m : Mesh) (he : H) (st : CollectSt) : CollectSt :=
  match alookup st.bmap (hkey m he) with
  | none =>
      { st with bmap := st.bmap ++ [(hkey m he, (he, 1, 0))] }
  | some (fh, mult, pid) =>
      if mult + 1 = 2 then
        { bmap := aset st.bmap (hkey m he) (fh, mult + 1, st.pairs.length),
          pairs := st.pairs ++ [(fh, he)],
          mani := st.mani ++ [decide (dirMatch m fh he)] }
      else
        { st with bmap := aset st.bmap (hkey m he) (fh, mult + 1, pid),
                  mani := st.mani.set pid false }

/-- Run `fill_pairs` over a list of halfedges starting from the empty
collector state. -/
def collectState (m : Mesh) (hs : List H) : CollectSt :=
  hs.foldl (fun st he => fill_pairs m he st) ⟨[], [], []⟩

/-- The final loop of `collect_duplicated_stitchable_boundary_edges`: output
only the pairs whose manifold flag is still set. -/
def outputPairs (st : CollectSt) : List (H × H) :=
  (st.pairs.zip st.mani).filterMap (fun x => if x.2 then some x.1 else none)

/-- The border halfedges of the mesh in iteration order (the main loop skips
non-border halfedges). -/
def borderHalfedges (m : Mesh) : List H :=
  m.halfedges.filter (fun h => decide (m.is_border h))

/-- `internal::collect_duplicated_stitchable_boundary_edges` in
non-per-connected-component mode. -/
def collect_duplicated_stitchable_boundary_edges (m : Mesh) : List (H × H) :=
  outputPairs (collectState m (borderHalfedges m))

/-! ### Topology Surgery Engine (`update_target_vertex`, `run_stitch_borders`) -/

/-- The fan walk of `update_target_vertex`: repeatedly `set_target` and step
to `opposite(next(h))` until back at the start; fuel bounds the walk. -/
def updateTargetAux (start : H) (v : V) : Nat → Mesh → H → Mesh
  | 0, m, _ => m
  | fuel+1, m, h =>
      let m1 := m.setTarget h v
      let h' := m1.opp (m1.nextH h)
      if h' = start then m1 else updateTargetAux start v fuel m1 h'

/-- `internal::update_target_vertex`. -/
def update_target_vertex (m : Mesh) (h : H) (v : V) (fuel : Nat) : Mesh :=
  updateTargetAux h v fuel m h

/-- First pass of `run_stitch_borders` for one pair: resolve the kept vertex
for each merge point via the union-find, retarget the halfedge fans of the
non-kept vertices, schedule those vertices for deletion, and set the kept
vertices' incident halfedges.  State: mesh, union-find, `vertices_to_delete`. -/
def stitchPairPhase1 (fuel : Nat) (st : Mesh × UF × List V) (p : H × H) :
    Mesh × UF × List V :=
  let m := st.1
  let u := st.2.1
  let dels := st.2.2
  let h1 := p.1
  let h2 := p.2
  let h1t := m.target h1
  let h2s := m.source h2
  let u1 := u.getHandle h1t
  let vk := u1.find h1t
  let md1 := if vk ≠ h1t
    then (update_target_vertex m h1 vk fuel, dels ++ [h1t]) else (m, dels)
  let m1 := md1.1
  let md2 := if vk ≠ h2s ∧ h1t ≠ h2s
    then (update_target_vertex m1 (m1.opp h2) vk fuel, md1.2 ++ [h2s])
    else (m1, md1.2)
  let m2 := (md2.1).setVertexHalfedge vk h1
  let h1s := m2.source h1
  let h2t := m2.target h2
  let u2 := u1.getHandle h2t
  let vk2 := u2.find h2t
  let md3 := if vk2 ≠ h2t
    then (update_target_vertex m2 h2 vk2 fuel, md2.2 ++ [h2t]) else (m2, md2.2)
  let m3 := md3.1
  let md4 := if vk2 ≠ h1s ∧ h1s ≠ h2t
    then (update_target_vertex m3 (m3.opp h1) vk2 fuel, md3.2 ++ [h1s])
    else (m3, md3.2)
  let m4 := (md4.1).setVertexHalfedge vk2 ((md4.1).opp h1)
  (m4, u2, md4.2)

/-- Second pass of `run_stitch_borders` for one pair: link `prev(h2)` to
`next(h1)` and `prev(h1)` to `next(h2)`. -/
def stitchPairPhase2 (m : Mesh) (p : H × H) : Mesh :=
  let m1 := m.setNext (m.prevH p.2) (m.nextH p.1)
  m1.setNext (m1.prevH p.1) (m1.nextH p.2)

/-- Third pass of `run_stitch_borders` for one pair: `h1` absorbs the face of
`opposite(h2)`, the face reference is fixed, `next`/`prev` are spliced around
the edge of `h2`, and that edge is removed. -/
def stitchPairPhase3 (m : Mesh) (p : H × H) : Mesh :=
  let h1 := p.1
  let h2 := p.2
  let m1 := m.setFace h1 (m.hface (m.opp h2))
  let m2 := m1.setFaceHalfedge (m1.hface h1) h1
  let m3 := m2.setNext (m2.prevH (m2.opp h2)) h1
  let m4 := m3.setNext h1 (m3.nextH (m3.opp h2))
  m4.removeEdge h2

/-- The first pass of `run_stitch_borders` over all pairs, returning the mesh,
the union-find and the accumulated `vertices_to_delete`. -/
def runPhase1 (m : Mesh) (ps : List (H × H)) (u : UF) (fuel : Nat) :
    Mesh × UF × List V :=
  ps.foldl (stitchPairPhase1 fuel) (m, u, [])

/-- `internal::run_stitch_borders`: the three passes over the pairs followed
by deletion of the scheduled vertices. -/
def run_stitch_borders (m : Mesh) (ps : List (H × H)) (u : UF) (fuel : Nat) :
    Mesh :=
  let s1 := runPhase1 m ps u fuel
  let m2 := ps.foldl stitchPairPhase2 s1.1
  let m3 := ps.foldl stitchPairPhase3 m2
  (s1.2.2).foldl Mesh.removeVertex m3

/-! ### Manifold-Safety Filter (`stitch_borders_impl`) -/

/-- The provisional union-find of `stitch_borders_impl`: for each pair,
`uf_join_vertices(target h1, source h2)` then
`uf_join_vertices(source h1, target h2)`. -/
def buildUF (m : Mesh) (ps : List (H × H)) : UF :=
  ps.foldl (fun u p =>
    (u.union (m.target p.1) (m.source p.2)).union (m.source p.1) (m.target p.2))
    UF.empty

/-- Append a halfedge to the bucket of a representative-pair key in
`halfedges_after_stitching`. -/
def addBucket (bl : List ((V × V) × List H)) (k : V × V) (hd : H) :
    List ((V × V) × List H) :=
  match alookup bl k with
  | none => bl ++ [(k, [hd])]
  | some l => aset bl k (l ++ [hd])

/-- `CGAL::make_sorted_pair`. -/
def sortV (a b : V) : V × V := if b < a then (b, a) else (a, b)

/-- Build `halfedges_after_stitching`: for every vertex registered in the
union-find and every halfedge incident to it, bucket the halfedge under the
sorted pair of class representatives (skipping the duplicate report when the
other endpoint is a smaller registered vertex). -/
def bucketsAfterStitching (m : Mesh) (u : UF) : List ((V × V) × List H) :=
  u.reg.foldl (fun bl vd =>
    let tgtRep := u.find vd
    (m.haroundTarget vd).foldl (fun bl hd =>
      let other := m.source hd
      if other ∈ u.reg then
        if other < vd then bl
        else addBucket bl (sortV tgtRep (u.find other)) hd
      else addBucket bl (sortV tgtRep other) hd) bl) []

/-- Insert a vertex into the `unstitchable_vertices` set if absent. -/
def insertNew (l : List V) (v : V) : List V := if v ∈ l then l else l ++ [v]

/-- Process one bucket of `halfedges_after_stitching`: a single halfedge is
fine; two are fine when both lie on border edges; otherwise every source and
target vertex of the bucket is marked unstitchable. -/
def markBucket (m : Mesh) (uns : List V) (B : List H) : List V :=
  match B with
  | [_] => uns
  | _ =>
      if B.length = 2 ∧ m.is_border_edge (B.headD 0) ∧
          m.is_border_edge (B.getLastD 0) then uns
      else B.foldl (fun uns hd =>
        insertNew (insertNew uns (m.source hd)) (m.target hd)) uns

/-- The `unstitchable_vertices` computed by `stitch_borders_impl` for a pair
list. -/
def unstitchable_vertices (m : Mesh) (ps : List (H × H)) : List V :=
  (bucketsAfterStitching m (buildUF m ps)).foldl
    (fun uns b => markBucket m uns b.2) []

/-- The filter test of `stitch_borders_impl`: a pair is kept only when none of
the four endpoint vertices is unstitchable. -/
def touchesUnstitchable (m : Mesh) (uns : List V) (p : H × H) : Prop :=
  m.source p.1 ∈ uns ∨ m.target p.1 ∈ uns ∨
  m.source p.2 ∈ uns ∨ m.target p.2 ∈ uns

instance (m : Mesh) (uns : List V) (p : H × H) :
    Decidable (touchesUnstitchable m uns p) := by
  unfold touchesUnstitchable; infer_instance

/-- The pair list actually handed to `run_stitch_borders`: all pairs when no
vertex is unstitchable, otherwise the filtered survivors. -/
def keptPairs (m : Mesh) (ps : List (H × H)) : List (H × H) :=
  if unstitchable_vertices m ps = [] then ps
  else ps.filter (fun p => decide (¬ touchesUnstitchable m (unstitchable_vertices m ps) p))

/-- `internal::stitch_borders_impl`: build the provisional union-find, detect
unstitchable vertices, filter the pairs, rebuild the union-find on the
survivors when anything was dropped, and run the surgery. -/
def stitch_borders_impl (m : Mesh) (ps : List (H × H)) : Mesh :=
  let uns := unstitchable_vertices m ps
  if uns = [] then
    run_stitch_borders m ps (buildUF m ps) (m.halfedges.length + 1)
  else
    let kept := ps.filter (fun p => decide (¬ touchesUnstitchable m uns p))
    run_stitch_borders m kept (buildUF m kept) (m.halfedges.length + 1)

/-- The number of pairs `stitch_borders_impl` hands to the surgery engine. -/
def implStitchedCount (m : Mesh) (ps : List (H × H)) : Nat :=
  (keptPairs m ps).length

/-- The public explicit-pairs overload `stitch_borders(pmesh,
hedge_pairs_to_stitch)`. -/
def stitch_borders_pairs (m : Mesh) (ps : List (H × H)) : Mesh :=
  stitch_borders_impl m ps

/-! ### Boundary Cycle Self-Stitcher (`stitch_boundary_cycle`,
`stitch_boundary_cycles`) -/

/-- The fold-point test of `stitch_boundary_cycle`:
`point(source hn) == point(target(next hn))` and the halfedge is not
degenerate (`point(source hn) != point(target hn)`). -/
def foldPointCond (m : Mesh) (hn : H) : Prop :=
  m.point (m.source hn) = m.point (m.target (m.nextH hn)) ∧
  m.point (m.source hn) ≠ m.point (m.target hn)

instance (m : Mesh) (hn : H) : Decidable (foldPointCond m hn) := by
  unfold foldPointCond; infer_instance

/-- The halfedges examined by the starting-point loop: `next(h)`, `next²(h)`,
…, stopping (exclusively) at `h`. -/
def cycleFromAux (m : Mesh) (stop : H) : Nat → H → List H
  | 0, _ => []
  | fuel+1, hn =>
      if hn = stop then [] else hn :: cycleFromAux m stop fuel (m.nextH hn)

/-- The cycle walk of the starting-point loop, beginning at `next(h)`. -/
def cycleFrom (m : Mesh) (h : H) (fuel : Nat) : List H := cycleFromAux m h fuel (m.nextH h)

/-- The `stitching_starting_points` loop of `stitch_boundary_cycle`. -/
def startingPointsAux (m : Mesh) (stop : H) : Nat → H → List H
  | 0, _ => []
  | fuel+1, hn =>
      if hn = stop then []
      else if foldPointCond m hn then
        hn :: startingPointsAux m stop fuel (m.nextH hn)
      else startingPointsAux m stop fuel (m.nextH hn)

/-- `stitching_starting_points` collected for the cycle of `h`. -/
def startingPoints (m : Mesh) (h : H) (fuel : Nat) : List H :=
  startingPointsAux m h fuel (m.nextH h)

/-- The symmetric outward walk of `stitch_boundary_cycle` from a starting
point: pair `(h, hn)` unless their opposites share a face, mark both
stitched, stop on full closure or an endpoint mismatch or a degenerate edge,
else step `h` backwards and `hn` forwards. -/
def walkAux (m : Mesh) : Nat → H → H → List (H × H) → List H →
    List (H × H) × List H
  | 0, _, _, acc, st => (acc, st)
  | fuel+1, h, hn, acc, st =>
      if m.hface (m.opp h) = m.hface (m.opp hn) then (acc, st)
      else
        let acc1 := acc ++ [(h, hn)]
        let st1 := insertNew (insertNew st h) hn
        if m.nextH hn = h then (acc1, st1)
        else
          let h' := m.prevH h
          let hn' := m.nextH hn
          if m.point (m.source h') ≠ m.point (m.target hn') ∨
              m.point (m.source hn') = m.point (m.target hn') then (acc1, st1)
          else walkAux m fuel h' hn' acc1 st1

/-- One iteration of the `stitch_boundary_cycle` main loop: skip already
treated starting points, walk, and apply the collected pairs immediately via
`stitch_borders_impl`.  State: mesh, `stitched_hedges`, stitched count. -/
def stitchCycleFold (fuel : Nat) (st : Mesh × List H × Nat) (hstart : H) :
    Mesh × List H × Nat :=
  let m := st.1
  let stitched := st.2.1
  let cnt := st.2.2
  if hstart ∈ stitched then st
  else
    let w := walkAux m fuel hstart (m.nextH hstart) [] stitched
    if w.1 = [] then (m, w.2, cnt)
    else (stitch_borders_impl m w.1, w.2, cnt + w.1.length)

/-- `stitch_boundary_cycle(h, pm, np)`: returns the mutated mesh and the
number of stitched pairs. -/
def stitch_boundary_cycle (m : Mesh) (h : H) : Mesh × Nat :=
  let fuel := m.halfedges.length + 1
  let sps := startingPoints m h fuel
  let r := sps.foldl (stitchCycleFold fuel) (m, [], 0)
  (r.1, r.2.2)

/-- The members of the border cycle through `h` (including `h`). -/
def cycleMembers (m : Mesh) (h : H) (fuel : Nat) : List H :=
  h :: cycleFromAux m h fuel (m.nextH h)

/-- Modelled from the spec: `extract_boundary_cycles` (from the external
border utilities) returns one representative border halfedge per maximal
next-linked loop of border halfedges. -/
def extract_boundary_cycles (m : Mesh) : List H :=
  let fuel := m.halfedges.length + 1
  (m.halfedges.foldl (fun (st : List H × List H) h =>
    if decide (m.is_border h) ∧ h ∉ st.2 then
      (st.1 ++ [h], st.2 ++ cycleMembers m h fuel)
    else st) ([], [])).1

/-- One iteration of the `stitch_boundary_cycles` loop: stitch the cycle of
one representative halfedge and accumulate its stitched-pair count. -/
def cyclesFoldStep (st : Mesh × Nat) (h : H) : Mesh × Nat :=
  let r := stitch_boundary_cycle st.1 h
  (r.1, st.2 + r.2)

/-- `stitch_boundary_cycles(pm, np)`: apply `stitch_boundary_cycle` to every
boundary cycle, accumulating the stitched-pair count. -/
def stitch_boundary_cycles (m : Mesh) : Mesh × Nat :=
  (extract_boundary_cycles m).foldl cyclesFoldStep (m, 0)

/-! ### Discovery entry point (`stitch_borders(pmesh, np)`) -/

/-- The discovery overload `stitch_borders(pmesh, np)` with default named
parameters: stitch all boundary cycles, collect duplicated stitchable border
pairs, stitch them, and stitch all boundary cycles again.  The C++ function
returns `void`, so only the mutated mesh comes back. -/
def stitch_borders_np (m : Mesh) : Mesh :=
  let m1 := (stitch_boundary_cycles m).1
  let ps := collect_duplicated_stitchable_boundary_edges m1
  let m2 := stitch_borders_pairs m1 ps
  (stitch_boundary_cycles m2).1

/-- The discovery overload together with its (void) return value. -/
def stitchBordersNPFull (m : Mesh) : Mesh × Unit := (stitch_borders_np m, ())

/-- Instrumentation: the total number of halfedge pairs handed to the surgery
engine during one `stitch_borders(pmesh, np)` call (cycle pass, global pass,
cycle pass). -/
def stitchBordersNPCount (m : Mesh) : Nat :=
  let r1 := stitch_boundary_cycles m
  let ps := collect_duplicated_stitchable_boundary_edges r1.1
  let m2 := stitch_borders_pairs r1.1 ps
  let r3 := stitch_boundary_cycles m2
  r1.2 + implStitchedCount r1.1 ps + r3.2

/-! ### Concrete meshes used as witnesses and counterexamples -/

/-- Build a total function from a finite table, defaulting to 0. -/
def fromTable (l : List (Nat × Nat)) : Nat → Nat :=
  fun x => (alookup l x).getD 0

/-- Build a face map from a finite table, defaulting to the border sentinel. -/
def faceTable (l : List (Nat × Nat)) : Nat → Option Nat :=
  fun x => alookup l x

/-- The empty mesh. -/
def meshE : Mesh where
  halfedges := []
  vertices := []
  nextH := id
  prevH := id
  opp := id
  vtx := id
  hface := fun _ => none
  vhalf := id
  fhalf := id
  point := id

/-- Two triangles sharing one duplicated open edge, oppositely oriented:
triangle 0 has vertices 0,1,2 (interior halfedges 0,1,2; border 3,4,5),
triangle 1 has vertices 3,4,5 (interior 6,7,8; border 9,10,11); the border
halfedges 3 (point 11 to 10) and 9 (point 10 to 11) are coincident and
oppositely oriented. -/
def meshT : Mesh where
  halfedges := [0, 1, 2, 3, 4, 5, 6, 7, 8, 9, 10, 11]
  vertices := [0, 1, 2, 3, 4, 5]
  nextH := fromTable [(0,1), (1,2), (2,0), (3,5), (5,4), (4,3),
                      (6,7), (7,8), (8,6), (9,11), (11,10), (10,9)]
  prevH := fromTable [(1,0), (2,1), (0,2), (5,3), (4,5), (3,4),
                      (7,6), (8,7), (6,8), (11,9), (10,11), (9,10)]
  opp := fromTable [(0,3), (3,0), (1,4), (4,1), (2,5), (5,2),
                    (6,9), (9,6), (7,10), (10,7), (8,11), (11,8)]
  vtx := fromTable [(0,1), (1,2), (2,0), (3,0), (4,1), (5,2),
                    (6,4), (7,5), (8,3), (9,3), (10,4), (11,5)]
  hface := faceTable [(0,0), (1,0), (2,0), (6,1), (7,1), (8,1)]
  vhalf := fromTable [(0,2), (1,0), (2,1), (3,8), (4,6), (5,7)]
  fhalf := fromTable [(0,0), (1,6)]
  point := fromTable [(0,10), (1,11), (2,12), (3,11), (4,10), (5,13)]

/-- Two quads with opposite orientations, coincident along all four sides:
quad A (vertices 0,1,2,3 at points 20,21,22,23; interior halfedges 0-3,
border 4-7) and quad B (vertices 4,5,6,7 at the same points; interior 8-11,
border 12-15).  The explicit pairs (4,15) and (6,13) stitch two opposite
sides; the border edges (1,5)/(10,14) and (3,7)/(8,12) remain coincident
duplicates. -/
def meshQ : Mesh where
  halfedges := [0, 1, 2, 3, 4, 5, 6, 7, 8, 9, 10, 11, 12, 13, 14, 15]
  vertices := [0, 1, 2, 3, 4, 5, 6, 7]
  nextH := fromTable [(0,1), (1,2), (2,3), (3,0), (4,7), (7,6), (6,5), (5,4),
                      (8,9), (9,10), (10,11), (11,8),
                      (12,15), (15,14), (14,13), (13,12)]
  prevH := fromTable [(1,0), (2,1), (3,2), (0,3), (7,4), (6,7), (5,6), (4,5),
                      (9,8), (10,9), (11,10), (8,11),
                      (15,12), (14,15), (13,14), (12,13)]
  opp := fromTable [(0,4), (4,0), (1,5), (5,1), (2,6), (6,2), (3,7), (7,3),
                    (8,12), (12,8), (9,13), (13,9), (10,14), (14,10),
                    (11,15), (15,11)]
  vtx := fromTable [(0,1), (1,2), (2,3), (3,0), (4,0), (5,1), (6,2), (7,3),
                    (8,7), (9,6), (10,5), (11,4), (12,4), (13,7), (14,6),
                    (15,5)]
  hface := faceTable [(0,0), (1,0), (2,0), (3,0), (8,1), (9,1), (10,1), (11,1)]
  vhalf := fromTable [(0,3), (1,0), (2,1), (3,2), (4,11), (5,10), (6,9), (7,8)]
  fhalf := fromTable [(0,0), (1,8)]
  point := fromTable [(0,20), (1,21), (2,22), (3,23), (4,20), (5,21), (6,22),
                      (7,23)]

/-- A geometrically degenerate slit quad: one face with vertices 0,1,2,3 at
points 30,31,30,31 (interior halfedges 4-7, border 0-3).  Every border
halfedge of its boundary cycle satisfies the fold-point condition. -/
def meshS : Mesh where
  halfedges := [0, 1, 2, 3, 4, 5, 6, 7]
  vertices := [0, 1, 2, 3]
  nextH := fromTable [(4,5), (5,6), (6,7), (7,4), (0,3), (3,2), (2,1), (1,0)]
  prevH := fromTable [(5,4), (6,5), (7,6), (4,7), (3,0), (2,3), (1,2), (0,1)]
  opp := fromTable [(0,4), (4,0), (1,5), (5,1), (2,6), (6,2), (3,7), (7,3)]
  vtx := fromTable [(0,0), (1,1), (2,2), (3,3), (4,1), (5,2), (6,3), (7,0)]
  hface := faceTable [(4,0), (5,0), (6,0), (7,0)]
  vhalf := fromTable [(0,7), (1,4), (2,5), (3,6)]
  fhalf := fromTable [(0,4)]
  point := fromTable [(0,30), (1,31), (2,30), (3,31)]

/-- A wedge of two triangles 0-1-2 (face 0) and 0-2-3 (face 1) sharing the
interior edge between vertices 0 and 2, with vertex 3 coincident with
vertex 1 (points 40,41,42,41): its single boundary cycle has a genuine fold
whose walk produces stitchable pairs across the two faces. -/
def meshW : Mesh where
  halfedges := [0, 1, 2, 3, 4, 5, 6, 7, 8, 9]
  vertices := [0, 1, 2, 3]
  nextH := fromTable [(0,1), (1,2), (2,0), (3,4), (4,5), (5,3),
                      (6,9), (9,8), (8,7), (7,6)]
  prevH := fromTable [(1,0), (2,1), (0,2), (4,3), (5,4), (3,5),
                      (9,6), (8,9), (7,8), (6,7)]
  opp := fromTable [(0,6), (6,0), (1,7), (7,1), (2,3), (3,2), (4,8), (8,4),
                    (5,9), (9,5)]
  vtx := fromTable [(0,1), (1,2), (2,0), (3,2), (4,3), (5,0),
                    (6,0), (7,1), (8,2), (9,3)]
  hface := faceTable [(0,0), (1,0), (2,0), (3,1), (4,1), (5,1)]
  vhalf := fromTable [(0,2), (1,0), (2,1), (3,4)]
  fhalf := fromTable [(0,0), (1,3)]
  point := fromTable [(0,40), (1,41), (2,42), (3,41)]

/-- Four triangles over points p=50, q=51, r=52, s=53, t=54: triangles A
(halfedges 0-5, vertices 0,1,2) and B (6-11, vertices 3,4,5) are coincident
copies of (p,q,r) with opposite orientations; triangle C (12-17, vertices
6,7,8) covers (q,r,s) and triangle D (18-23, vertices 9,10,11) covers
(q,r,t) with opposite orientation.  The key (q,r) is carried by four border
halfedges (4, 11, 15, 21), so the global pass skips it. -/
def meshZ : Mesh where
  halfedges := [0, 1, 2, 3, 4, 5, 6, 7, 8, 9, 10, 11, 12, 13, 14, 15, 16, 17,
                18, 19, 20, 21, 22, 23]
  vertices := [0, 1, 2, 3, 4, 5, 6, 7, 8, 9, 10, 11]
  nextH := fromTable [(0,1), (1,2), (2,0), (3,5), (5,4), (4,3),
                      (6,7), (7,8), (8,6), (9,11), (11,10), (10,9),
                      (12,13), (13,14), (14,12), (15,17), (17,16), (16,15),
                      (18,19), (19,20), (20,18), (21,23), (23,22), (22,21)]
  prevH := fromTable [(1,0), (2,1), (0,2), (5,3), (4,5), (3,4),
                      (7,6), (8,7), (6,8), (11,9), (10,11), (9,10),
                      (13,12), (14,13), (12,14), (17,15), (16,17), (15,16),
                      (19,18), (20,19), (18,20), (23,21), (22,23), (21,22)]
  opp := fromTable [(0,3), (3,0), (1,4), (4,1), (2,5), (5,2),
                    (6,9), (9,6), (7,10), (10,7), (8,11), (11,8),
                    (12,15), (15,12), (13,16), (16,13), (14,17), (17,14),
                    (18,21), (21,18), (19,22), (22,19), (20,23), (23,20)]
  vtx := fromTable [(0,1), (1,2), (2,0), (3,0), (4,1), (5,2),
                    (6,3), (7,5), (8,4), (9,4), (10,3), (11,5),
                    (12,7), (13,8), (14,6), (15,6), (16,7), (17,8),
                    (18,9), (19,11), (20,10), (21,10), (22,9), (23,11)]
  hface := faceTable [(0,0), (1,0), (2,0), (6,1), (7,1), (8,1),
                      (12,2), (13,2), (14,2), (18,3), (19,3), (20,3)]
  vhalf := fromTable [(0,2), (1,0), (2,1), (3,6), (4,8), (5,7),
                      (6,14), (7,12), (8,13), (9,18), (10,20), (11,19)]
  fhalf := fromTable [(0,0), (1,6), (2,12), (3,18)]
  point := fromTable [(0,50), (1,51), (2,52), (3,50), (4,51), (5,52),
                      (6,51), (7,52), (8,53), (9,51), (10,52), (11,54)]

/-- The halfedges removed by `run_stitch_borders`: for every pair, `p.second`
and its opposite. -/
def removedHalfedges (m : Mesh) (ps : List (H × H)) : List H :=
  ps.flatMap (fun p => [p.2, m.opp p.2])

/-- The structural halfedge invariant: `opposite` is an involution on the
live halfedges. -/
def oppInvolutive (m : Mesh) : Prop :=
  ∀ h ∈ m.halfedges, m.opp (m.opp h) = h

instance (m : Mesh) : Decidable (oppInvolutive m) := by
  unfold oppInvolutive; infer_instance

/-- The halfedges of a mesh that span a given unordered vertex pair. -/
def spanningHalfedges (m : Mesh) (k : V × V) : List H :=
  m.halfedges.filter (fun h => decide (sortV (m.source h) (m.target h) = k))

/-- The occurrences of an endpoint key among a halfedge list. -/
def occs (m : Mesh) (K : Pt × Pt) (l : List H) : List H :=
  l.filter (fun he => decide (hkey m he = K))

/-- The collector-state invariant maintained by `fill_pairs` over the
processed prefix `L` of border halfedges: the map's multiplicity counts the
key's occurrences, the stored halfedge is the first occurrence, each key
reaching multiplicity 2 owns a recorded pair (first and second occurrence)
whose manifold flag holds exactly when the directional match succeeded and
the multiplicity is still 2, pair slots are exactly the keys of multiplicity
at least 2, and distinct such keys own distinct slots. -/
def CollectInv (m : Mesh) (L : List H) (st : CollectSt) : Prop :=
  st.pairs.length = st.mani.length ∧
  (∀ K, alookup st.bmap K = none → occs m K L = []) ∧
  (∀ K fh mult pid, alookup st.bmap K = some (fh, mult, pid) →
      mult = (occs m K L).length ∧ (occs m K L).head? = some fh ∧ 1 ≤ mult ∧
      (2 ≤ mult → pid < st.pairs.length ∧
        ∃ s, (occs m K L)[1]? = some s ∧ st.pairs[pid]? = some (fh, s) ∧
          st.mani[pid]? = some (decide (dirMatch m fh s) && decide (mult = 2)))) ∧
  (∀ i, i < st.pairs.length →
      ∃ K fh mult, alookup st.bmap K = some (fh, mult, i) ∧ 2 ≤ mult) ∧
  (∀ K K' fh fh' mult mult' pid pid',
      alookup st.bmap K = some (fh, mult, pid) →
      alookup st.bmap K' = some (fh', mult', pid') →
      2 ≤ mult → 2 ≤ mult' → pid = pid' → K = K')

/-- Surgery only erodes a mesh: the `opposite` accessor is untouched and the
live halfedge list only loses elements. -/
def erodes (m m' : Mesh) : Prop :=
  m'.opp = m.opp ∧ m'.halfedges ⊆ m.halfedges

/-! ## Theorems -/

/-- C10: calling the explicit-pairs entry point `stitch_borders(pmesh,
hedge_pairs_to_stitch)` with an empty range of pairs leaves the mesh
completely unchanged: no vertex, halfedge, or face is added, removed, or
relinked. -/
theorem C10_empty_pairs_identity : ∀ m : Mesh, stitch_borders_pairs m [] = m :=
  fun _ => rfl

/-- C4: the discovery entry point `stitch_borders(pmesh, np)` executes, in
this order: self-cycle stitching over all boundary cycles, then global
border-pair collection and stitching of the collected pairs, then self-cycle
stitching over all boundary cycles again. -/
theorem C4_call_order : ∀ m : Mesh,
    stitch_borders_np m =
      (stitch_boundary_cycles
        (stitch_borders_pairs (stitch_boundary_cycles m).1
          (collect_duplicated_stitchable_boundary_edges
            (stitch_boundary_cycles m).1))).1 :=
  fun _ => rfl

/-- C8 (amended): the discovery entry point `stitch_borders(pmesh, np)`
returns `void`: the only output is the mutated mesh, and the returned value
is the same for every input, so it cannot report the stitched-pair count. -/
theorem C8_void_return : ∀ m : Mesh,
    stitchBordersNPFull m = (stitch_borders_np m, ()) ∧
    ∀ m' : Mesh, (stitchBordersNPFull m).2 = (stitchBordersNPFull m').2 :=
  fun _ => ⟨rfl, fun _ => rfl⟩

set_option maxHeartbeats 4000000 in
/-- C8 counterexample: on the two-triangle mesh the discovery call stitches
one pair (the halfedge count drops from 12 to 10), on the empty mesh it
stitches zero, yet the C++ return value (`void`, embedded as `Unit`) is
identical for both calls — so the entry point does not return the
stitched-pair count. -/
theorem C8_counterexample :
    (stitchBordersNPFull meshT).2 = (stitchBordersNPFull meshE).2 ∧
    stitchBordersNPCount meshT = 1 ∧ stitchBordersNPCount meshE = 0 ∧
    (stitch_borders_np meshT).halfedges.length = 10 ∧
    meshT.halfedges.length = 12 := by
  refine ⟨rfl, ?_, rfl, ?_, rfl⟩ <;> decide

set_option maxHeartbeats 4000000 in
/-- C1 counterexample: after the public call `stitch_borders(meshQ,
[(4,15),(6,13)])` — two valid, filter-approved pairs — the surviving mesh
has four halfedges (1, 5, 10 and 14) all spanning the single surviving
vertex pair (1,2), because the two coincident border edges between the
merged endpoints both survive; so an edge of the mesh carries more than 2
incident halfedges after a public stitching call. -/
theorem C1_counterexample :
    ((stitch_borders_pairs meshQ [(4, 15), (6, 13)]).halfedges.filter
        (fun h => decide (sortV ((stitch_borders_pairs meshQ [(4, 15), (6, 13)]).source h)
          ((stitch_borders_pairs meshQ [(4, 15), (6, 13)]).target h) = (1, 2)))) =
      [1, 5, 10, 14] ∧
    1 ∈ (stitch_borders_pairs meshQ [(4, 15), (6, 13)]).vertices ∧
    2 ∈ (stitch_borders_pairs meshQ [(4, 15), (6, 13)]).vertices := by
  refine ⟨?_, ?_, ?_⟩ <;> decide

set_option maxHeartbeats 4000000 in
/-- C3 counterexample: for the same mesh and pairs, the accumulated
representative-pair key (0,3) holds exactly the two halfedges 3 and 12,
halfedge 3 is an interior halfedge (its face is 0, only its opposite is a
border halfedge), yet the filter marks nothing unstitchable — the code
accepts a size-2 bucket whenever both halfedges lie on border *edges*, not
only when both halfedges are themselves border halfedges. -/
theorem C3_counterexample :
    alookup (bucketsAfterStitching meshQ (buildUF meshQ [(4, 15), (6, 13)]))
        (0, 3) = some [3, 12] ∧
    ¬ meshQ.is_border 3 ∧ meshQ.is_border_edge 3 ∧
    unstitchable_vertices meshQ [(4, 15), (6, 13)] = [] := by
  refine ⟨?_, ?_, ?_, ?_⟩ <;> decide

/-- C6 counterexample: on the slit quad, the input halfedge 0 of the
boundary cycle satisfies the fold-point condition, yet the starting-point
loop — which begins at `next(h)` and stops before re-reaching `h` — never
examines it, so halfedge 0 is not selected as a fold point. -/
theorem C6_counterexample :
    foldPointCond meshS 0 ∧
    startingPoints meshS 0 (meshS.halfedges.length + 1) = [3, 2, 1] ∧
    0 ∉ startingPoints meshS 0 (meshS.halfedges.length + 1) := by
  refine ⟨?_, ?_, ?_⟩ <;> decide

set_option maxHeartbeats 16000000 in
/-- C9 counterexample: on the four-triangle mesh `meshZ` the first discovery
call stitches 3 pairs (24 halfedges down to 18), and the second discovery
call stitches one further pair (down to 16): the key (51,52) initially has
multiplicity 4 and is skipped, but the first call's final cycle pass zips
two of its four halfedges, so the second call finds a clean duplicated pair
— stitching twice is not the same as stitching once. -/
theorem C9_counterexample :
    stitchBordersNPCount meshZ = 3 ∧
    (stitch_borders_np meshZ).halfedges.length = 18 ∧
    stitchBordersNPCount (stitch_borders_np meshZ) = 1 ∧
    (stitch_borders_np (stitch_borders_np meshZ)).halfedges.length = 16 := by
  refine ⟨?_, ?_, ?_, ?_⟩ <;> decide

/-- Auxiliary for C7: every pair accumulated by the self-stitching walk was
either already in the accumulator or satisfies the face check. -/
theorem walkAux_mem (m : Mesh) : ∀ (fuel : Nat) (h hn : H) (acc : List (H × H))
    (st : List H) (p : H × H), p ∈ (walkAux m fuel h hn acc st).1 →
    p ∈ acc ∨ m.hface (m.opp p.1) ≠ m.hface (m.opp p.2) := by
  intro fuel
  induction fuel with
  | zero => intro h hn acc st p hp; exact Or.inl hp
  | succ f ih =>
    intro h hn acc st p hp
    simp only [walkAux] at hp
    by_cases hfc : m.hface (m.opp h) = m.hface (m.opp hn)
    · rw [if_pos hfc] at hp
      exact Or.inl hp
    · rw [if_neg hfc] at hp
      have hstep : p ∈ acc ++ [(h, hn)] →
          p ∈ acc ∨ m.hface (m.opp p.1) ≠ m.hface (m.opp p.2) := by
        intro hmem
        rcases List.mem_append.mp hmem with h1 | h2
        · exact Or.inl h1
        · right
          have : p = (h, hn) := by simpa using h2
          subst this
          exact hfc
      by_cases hcl : m.nextH hn = h
      · rw [if_pos hcl] at hp
        exact hstep hp
      · rw [if_neg hcl] at hp
        by_cases hmis : m.point (m.source (m.prevH h)) ≠
            m.point (m.target (m.nextH hn)) ∨
            m.point (m.source (m.nextH hn)) = m.point (m.target (m.nextH hn))
        · rw [if_pos hmis] at hp
          exact hstep hp
        · rw [if_neg hmis] at hp
          rcases ih (m.prevH h) (m.nextH hn) (acc ++ [(h, hn)])
              (insertNew (insertNew st h) hn) p hp with h1 | h2
          · exact hstep h1
          · exact Or.inr h2

/-- C7: during a self-stitching walk, a candidate pair `(h, hn)` is appended
only when `face(opposite(h)) != face(opposite(hn))`; whenever the two
opposites share a face the walk stops before pairing them, so every pair the
walk hands to the surgery engine satisfies the face inequality. -/
theorem C7_no_face_collapse (m : Mesh) (fuel : Nat) (hstart : H)
    (stitched : List H) (p : H × H)
    (hp : p ∈ (walkAux m fuel hstart (m.nextH hstart) [] stitched).1) :
    m.hface (m.opp p.1) ≠ m.hface (m.opp p.2) := by
  rcases walkAux_mem m fuel hstart (m.nextH hstart) [] stitched p hp with h1 | h2
  · simp at h1
  · exact h2

/-- C7 witness: on the wedge mesh the walk from starting point 8 produces
the pair (8,7), and the theorem yields that the faces of the two opposites
differ. -/
theorem C7_no_face_collapse_witness :
    (8, 7) ∈ (walkAux meshW 11 8 (meshW.nextH 8) [] []).1 ∧
    meshW.hface (meshW.opp 8) ≠ meshW.hface (meshW.opp 7) :=
  ⟨by decide, C7_no_face_collapse meshW 11 8 [] (8, 7) (by decide)⟩

/-- Auxiliary for C6: the starting-point loop is the fold-point filter of the
examined cycle walk. -/
theorem startingPointsAux_eq_filter (m : Mesh) (stop : H) : ∀ (fuel : Nat) (hn : H),
    startingPointsAux m stop fuel hn =
      (cycleFromAux m stop fuel hn).filter (fun x => decide (foldPointCond m x)) := by
  intro fuel
  induction fuel with
  | zero => intro hn; rfl
  | succ f ih =>
    intro hn
    simp only [startingPointsAux, cycleFromAux]
    by_cases hs : hn = stop
    · rw [if_pos hs, if_pos hs]
      rfl
    · rw [if_neg hs, if_neg hs]
      by_cases hc : foldPointCond m hn
      · rw [if_pos hc, List.filter_cons_of_pos (by simpa using hc), ih]
      · rw [if_neg hc, List.filter_cons_of_neg (by simpa using hc), ih]

/-- Auxiliary for C6: the loop's stopping halfedge is never among the
examined halfedges. -/
theorem stop_not_mem_cycleFromAux (m : Mesh) (stop : H) : ∀ (fuel : Nat) (hn : H),
    stop ∉ cycleFromAux m stop fuel hn := by
  intro fuel
  induction fuel with
  | zero => intro hn; simp [cycleFromAux]
  | succ f ih =>
    intro hn
    simp only [cycleFromAux]
    by_cases hs : hn = stop
    · rw [if_pos hs]; simp
    · rw [if_neg hs]
      intro hmem
      rcases List.mem_cons.mp hmem with h1 | h2
      · exact hs h1.symm
      · exact ih (m.nextH hn) h2

/-- C6 (amended): a halfedge `hn` is selected as a fold point iff it is among
the halfedges the loop examines — `next(h)`, `next²(h)`, …, excluding the
input halfedge `h` itself — and satisfies
`point(source hn) == point(target(next hn))` with
`point(source hn) != point(target hn)`; the input halfedge is never
examined, hence never selected, and a zero-length halfedge is never a fold
point. -/
theorem C6_fold_point_selection (m : Mesh) (h : H) (fuel : Nat) (hn : H) :
    (hn ∈ startingPoints m h fuel ↔
      hn ∈ cycleFrom m h fuel ∧ foldPointCond m hn) ∧
    h ∉ cycleFrom m h fuel := by
  constructor
  · rw [startingPoints, cycleFrom, startingPointsAux_eq_filter]
    simp [List.mem_filter]
  · exact stop_not_mem_cycleFromAux m h fuel (m.nextH h)
/-! ### Field-preservation lemmas for the mesh mutators -/

@[simp] theorem setTarget_halfedges (m : Mesh) (h : H) (v : V) :
    (m.setTarget h v).halfedges = m.halfedges := rfl

@[simp] theorem setTarget_vertices (m : Mesh) (h : H) (v : V) :
    (m.setTarget h v).vertices = m.vertices := rfl

@[simp] theorem setTarget_opp (m : Mesh) (h : H) (v : V) :
    (m.setTarget h v).opp = m.opp := rfl

@[simp] theorem setNext_halfedges (m : Mesh) (p n : H) :
    (m.setNext p n).halfedges = m.halfedges := rfl

@[simp] theorem setNext_vertices (m : Mesh) (p n : H) :
    (m.setNext p n).vertices = m.vertices := rfl

@[simp] theorem setNext_opp (m : Mesh) (p n : H) :
    (m.setNext p n).opp = m.opp := rfl

@[simp] theorem setFace_halfedges (m : Mesh) (h : H) (f : Option F) :
    (m.setFace h f).halfedges = m.halfedges := rfl

@[simp] theorem setFace_vertices (m : Mesh) (h : H) (f : Option F) :
    (m.setFace h f).vertices = m.vertices := rfl

@[simp] theorem setFace_opp (m : Mesh) (h : H) (f : Option F) :
    (m.setFace h f).opp = m.opp := rfl

@[simp] theorem setVertexHalfedge_halfedges (m : Mesh) (v : V) (h : H) :
    (m.setVertexHalfedge v h).halfedges = m.halfedges := rfl

@[simp] theorem setVertexHalfedge_vertices (m : Mesh) (v : V) (h : H) :
    (m.setVertexHalfedge v h).vertices = m.vertices := rfl

@[simp] theorem setVertexHalfedge_opp (m : Mesh) (v : V) (h : H) :
    (m.setVertexHalfedge v h).opp = m.opp := rfl

@[simp] theorem setFaceHalfedge_halfedges (m : Mesh) (f : Option F) (h : H) :
    (m.setFaceHalfedge f h).halfedges = m.halfedges := by
  cases f <;> rfl

@[simp] theorem setFaceHalfedge_vertices (m : Mesh) (f : Option F) (h : H) :
    (m.setFaceHalfedge f h).vertices = m.vertices := by
  cases f <;> rfl

@[simp] theorem setFaceHalfedge_opp (m : Mesh) (f : Option F) (h : H) :
    (m.setFaceHalfedge f h).opp = m.opp := by
  cases f <;> rfl

@[simp] theorem setFaceHalfedge_hface (m : Mesh) (f : Option F) (h : H) :
    (m.setFaceHalfedge f h).hface = m.hface := by
  cases f <;> rfl

@[simp] theorem removeEdge_vertices (m : Mesh) (h : H) :
    (m.removeEdge h).vertices = m.vertices := rfl

@[simp] theorem removeEdge_opp (m : Mesh) (h : H) :
    (m.removeEdge h).opp = m.opp := rfl

@[simp] theorem removeEdge_halfedges (m : Mesh) (h : H) :
    (m.removeEdge h).halfedges = (m.halfedges.erase h).erase (m.opp h) := rfl

@[simp] theorem removeVertex_halfedges (m : Mesh) (v : V) :
    (m.removeVertex v).halfedges = m.halfedges := rfl

@[simp] theorem removeVertex_opp (m : Mesh) (v : V) :
    (m.removeVertex v).opp = m.opp := rfl

@[simp] theorem removeVertex_vertices (m : Mesh) (v : V) :
    (m.removeVertex v).vertices = m.vertices.erase v := rfl

@[simp] theorem updateTargetAux_halfedges (start : H) (v : V) :
    ∀ (fuel : Nat) (m : Mesh) (h : H),
    (updateTargetAux start v fuel m h).halfedges = m.halfedges := by
  intro fuel
  induction fuel with
  | zero => intro m h; rfl
  | succ f ih =>
    intro m h
    simp only [updateTargetAux]
    split
    · rfl
    · rw [ih]
      rfl

@[simp] theorem updateTargetAux_vertices (start : H) (v : V) :
    ∀ (fuel : Nat) (m : Mesh) (h : H),
    (updateTargetAux start v fuel m h).vertices = m.vertices := by
  intro fuel
  induction fuel with
  | zero => intro m h; rfl
  | succ f ih =>
    intro m h
    simp only [updateTargetAux]
    split
    · rfl
    · rw [ih]
      rfl

@[simp] theorem updateTargetAux_opp (start : H) (v : V) :
    ∀ (fuel : Nat) (m : Mesh) (h : H),
    (updateTargetAux start v fuel m h).opp = m.opp := by
  intro fuel
  induction fuel with
  | zero => intro m h; rfl
  | succ f ih =>
    intro m h
    simp only [updateTargetAux]
    split
    · rfl
    · rw [ih]
      rfl

@[simp] theorem update_target_vertex_halfedges (m : Mesh) (h : H) (v : V)
    (fuel : Nat) : (update_target_vertex m h v fuel).halfedges = m.halfedges :=
  updateTargetAux_halfedges h v fuel m h

@[simp] theorem update_target_vertex_vertices (m : Mesh) (h : H) (v : V)
    (fuel : Nat) : (update_target_vertex m h v fuel).vertices = m.vertices :=
  updateTargetAux_vertices h v fuel m h

@[simp] theorem update_target_vertex_opp (m : Mesh) (h : H) (v : V)
    (fuel : Nat) : (update_target_vertex m h v fuel).opp = m.opp :=
  updateTargetAux_opp h v fuel m h

theorem stitchPairPhase1_fields (fuel : Nat) (st : Mesh × UF × List V)
    (p : H × H) :
    ((stitchPairPhase1 fuel st p).1).halfedges = (st.1).halfedges ∧
    ((stitchPairPhase1 fuel st p).1).vertices = (st.1).vertices ∧
    ((stitchPairPhase1 fuel st p).1).opp = (st.1).opp := by
  simp only [stitchPairPhase1]
  split_ifs <;> simp

theorem phase1Fold_fields (fuel : Nat) : ∀ (ps : List (H × H))
    (st : Mesh × UF × List V),
    ((ps.foldl (stitchPairPhase1 fuel) st).1).halfedges = (st.1).halfedges ∧
    ((ps.foldl (stitchPairPhase1 fuel) st).1).vertices = (st.1).vertices ∧
    ((ps.foldl (stitchPairPhase1 fuel) st).1).opp = (st.1).opp := by
  intro ps
  induction ps with
  | nil => intro st; exact ⟨rfl, rfl, rfl⟩
  | cons p ps ih =>
    intro st
    rcases ih (stitchPairPhase1 fuel st p) with ⟨h1, h2, h3⟩
    rcases stitchPairPhase1_fields fuel st p with ⟨g1, g2, g3⟩
    exact ⟨by rw [List.foldl_cons, h1, g1], by rw [List.foldl_cons, h2, g2],
      by rw [List.foldl_cons, h3, g3]⟩

theorem stitchPairPhase2_fields (m : Mesh) (p : H × H) :
    (stitchPairPhase2 m p).halfedges = m.halfedges ∧
    (stitchPairPhase2 m p).vertices = m.vertices ∧
    (stitchPairPhase2 m p).opp = m.opp := by
  simp [stitchPairPhase2]

theorem phase2Fold_fields : ∀ (ps : List (H × H)) (m : Mesh),
    (ps.foldl stitchPairPhase2 m).halfedges = m.halfedges ∧
    (ps.foldl stitchPairPhase2 m).vertices = m.vertices ∧
    (ps.foldl stitchPairPhase2 m).opp = m.opp := by
  intro ps
  induction ps with
  | nil => intro m; exact ⟨rfl, rfl, rfl⟩
  | cons p ps ih =>
    intro m
    rcases ih (stitchPairPhase2 m p) with ⟨h1, h2, h3⟩
    rcases stitchPairPhase2_fields m p with ⟨g1, g2, g3⟩
    exact ⟨by rw [List.foldl_cons, h1, g1], by rw [List.foldl_cons, h2, g2],
      by rw [List.foldl_cons, h3, g3]⟩

theorem stitchPairPhase3_fields (m : Mesh) (p : H × H) :
    (stitchPairPhase3 m p).halfedges =
      (m.halfedges.erase p.2).erase (m.opp p.2) ∧
    (stitchPairPhase3 m p).vertices = m.vertices ∧
    (stitchPairPhase3 m p).opp = m.opp := by
  simp [stitchPairPhase3]

theorem removedHalfedges_congr (m m' : Mesh) (ps : List (H × H))
    (hopp : m'.opp = m.opp) :
    removedHalfedges m' ps = removedHalfedges m ps := by
  simp only [removedHalfedges, hopp]

theorem mem_double_erase {l : List H} (hnd : l.Nodup) (a b h : H) :
    h ∈ (l.erase a).erase b ↔ h ∈ l ∧ h ≠ a ∧ h ≠ b := by
  rw [(hnd.erase a).mem_erase_iff, hnd.mem_erase_iff]
  tauto

theorem phase3Fold : ∀ (ps : List (H × H)) (m : Mesh),
    m.halfedges.Nodup →
    (removedHalfedges m ps).Nodup →
    (∀ h ∈ removedHalfedges m ps, h ∈ m.halfedges) →
    (ps.foldl stitchPairPhase3 m).halfedges.length
        = m.halfedges.length - 2 * ps.length ∧
    (ps.foldl stitchPairPhase3 m).vertices = m.vertices ∧
    (ps.foldl stitchPairPhase3 m).opp = m.opp ∧
    (ps.foldl stitchPairPhase3 m).halfedges.Nodup ∧
    (∀ h, h ∈ (ps.foldl stitchPairPhase3 m).halfedges ↔
        h ∈ m.halfedges ∧ h ∉ removedHalfedges m ps) := by
  intro ps
  induction ps with
  | nil =>
    intro m hhnd _ _
    refine ⟨by simp, rfl, rfl, hhnd, ?_⟩
    intro h
    simp [removedHalfedges]
  | cons p ps ih =>
    intro m hhnd hnd hsub
    have hrem : removedHalfedges m (p :: ps)
        = p.2 :: m.opp p.2 :: removedHalfedges m ps := by
      simp [removedHalfedges]
    rw [hrem] at hnd hsub
    have hne : p.2 ≠ m.opp p.2 := by
      intro hcontra
      apply (List.nodup_cons.mp hnd).1
      rw [← hcontra]
      exact List.mem_cons_self _ _
    have hp2 : p.2 ∈ m.halfedges := hsub p.2 (by simp)
    have hop2 : m.opp p.2 ∈ m.halfedges := hsub (m.opp p.2) (by simp)
    have hp2R : p.2 ∉ removedHalfedges m ps := by
      have hh := (List.nodup_cons.mp hnd).1
      exact fun hc => hh (List.mem_cons_of_mem _ hc)
    have hop2R : m.opp p.2 ∉ removedHalfedges m ps := by
      have := (List.nodup_cons.mp (List.nodup_cons.mp hnd).2).1
      exact this
    have hndR : (removedHalfedges m ps).Nodup :=
      (List.nodup_cons.mp (List.nodup_cons.mp hnd).2).2
    set m' := stitchPairPhase3 m p with hm'
    rcases stitchPairPhase3_fields m p with ⟨hf1, hf2, hf3⟩
    have hhnd' : m'.halfedges.Nodup := by
      rw [hf1]
      exact (hhnd.erase p.2).erase (m.opp p.2)
    have hmem' : ∀ h, h ∈ m'.halfedges ↔
        h ∈ m.halfedges ∧ h ≠ p.2 ∧ h ≠ m.opp p.2 := by
      intro h
      rw [hf1]
      exact mem_double_erase hhnd p.2 (m.opp p.2) h
    have hremps : removedHalfedges m' ps = removedHalfedges m ps :=
      removedHalfedges_congr m m' ps hf3
    have hsub' : ∀ h ∈ removedHalfedges m' ps, h ∈ m'.halfedges := by
      intro h hh
      rw [hremps] at hh
      refine (hmem' h).mpr ⟨hsub h (by simp [hh]), ?_, ?_⟩
      · intro hc; subst hc; exact hp2R hh
      · intro hc; subst hc; exact hop2R hh
    have hlen' : m'.halfedges.length = m.halfedges.length - 2 := by
      rw [hf1]
      have h1 : (m.halfedges.erase p.2).length = m.halfedges.length - 1 :=
        List.length_erase_of_mem hp2
      have h2 : m.opp p.2 ∈ m.halfedges.erase p.2 :=
        (hhnd.mem_erase_iff).mpr ⟨Ne.symm hne, hop2⟩
      have h3 := List.length_erase_of_mem h2
      omega
    have hlenge : 2 ≤ m.halfedges.length := by
      have h2 : m.opp p.2 ∈ m.halfedges.erase p.2 :=
        (hhnd.mem_erase_iff).mpr ⟨Ne.symm hne, hop2⟩
      have h4 : 0 < (m.halfedges.erase p.2).length := List.length_pos_of_mem h2
      have h1 : (m.halfedges.erase p.2).length = m.halfedges.length - 1 :=
        List.length_erase_of_mem hp2
      omega
    rcases ih m' hhnd' (hremps ▸ hndR) hsub' with ⟨ih1, ih2, ih3, ih4, ih5⟩
    rw [List.foldl_cons]
    refine ⟨?_, by rw [ih2, hf2], by rw [ih3, hf3], ih4, ?_⟩
    · rw [ih1, hlen']
      simp only [List.length_cons]
      omega
    · intro h
      rw [ih5 h, hremps, hmem' h, hrem]
      simp only [List.mem_cons, not_or]
      tauto

theorem removeVertexFold : ∀ (dels : List V) (m : Mesh),
    dels.Nodup → (∀ v ∈ dels, v ∈ m.vertices) →
    (dels.foldl Mesh.removeVertex m).halfedges = m.halfedges ∧
    (dels.foldl Mesh.removeVertex m).opp = m.opp ∧
    (dels.foldl Mesh.removeVertex m).vertices.length
        = m.vertices.length - dels.length := by
  intro dels
  induction dels with
  | nil => intro m _ _; exact ⟨rfl, rfl, by simp⟩
  | cons v dels ih =>
    intro m hnd hsub
    have hv : v ∈ m.vertices := hsub v (by simp)
    have hvlen : (m.removeVertex v).vertices.length = m.vertices.length - 1 := by
      rw [removeVertex_vertices]
      exact List.length_erase_of_mem hv
    have hsub' : ∀ w ∈ dels, w ∈ (m.removeVertex v).vertices := by
      intro w hw
      rw [removeVertex_vertices]
      have hne : w ≠ v := by
        intro hc; subst hc; exact (List.nodup_cons.mp hnd).1 hw
      exact (List.mem_erase_of_ne hne).mpr (hsub w (by simp [hw]))
    have hpos : 1 ≤ m.vertices.length := List.length_pos_of_mem hv
    rcases ih (m.removeVertex v) (List.nodup_cons.mp hnd).2 hsub' with
      ⟨ih1, ih2, ih3⟩
    rw [List.foldl_cons]
    refine ⟨by rw [ih1, removeVertex_halfedges], by rw [ih2, removeVertex_opp], ?_⟩
    rw [ih3, hvlen]
    simp only [List.length_cons]
    omega

/-- C5: for every surgery run with well-formed input (the halfedges scheduled
for removal — each pair's `h2` and its opposite — are distinct live
halfedges, and the vertices scheduled for deletion are distinct live
vertices), each stitched pair removes exactly the edge of `h2`, so the
surviving halfedges are exactly the original ones minus those edges,
`halfedges_after = halfedges_before - 2 * n` for `n` stitched pairs, and
`vertices_after = vertices_before - d` for `d` deleted vertices. -/
theorem C5_count_conservation (m : Mesh) (ps : List (H × H)) (u : UF)
    (fuel : Nat)
    (hhnd : m.halfedges.Nodup)
    (hnd : (removedHalfedges m ps).Nodup)
    (hsub : ∀ h ∈ removedHalfedges m ps, h ∈ m.halfedges)
    (hdnd : ((runPhase1 m ps u fuel).2.2).Nodup)
    (hdsub : ∀ v ∈ (runPhase1 m ps u fuel).2.2, v ∈ m.vertices) :
    (run_stitch_borders m ps u fuel).halfedges.length
        = m.halfedges.length - 2 * ps.length ∧
    (run_stitch_borders m ps u fuel).vertices.length
        = m.vertices.length - ((runPhase1 m ps u fuel).2.2).length ∧
    (∀ h, h ∈ (run_stitch_borders m ps u fuel).halfedges ↔
        h ∈ m.halfedges ∧ h ∉ removedHalfedges m ps) := by
  have e1 := phase1Fold_fields fuel ps (m, u, [])
  have e1h : ((runPhase1 m ps u fuel).1).halfedges = m.halfedges := e1.1
  have e1v : ((runPhase1 m ps u fuel).1).vertices = m.vertices := e1.2.1
  have e1o : ((runPhase1 m ps u fuel).1).opp = m.opp := e1.2.2
  have e2 := phase2Fold_fields ps (runPhase1 m ps u fuel).1
  have e2h := e2.1.trans e1h
  have e2v := e2.2.1.trans e1v
  have e2o := e2.2.2.trans e1o
  set m2 := ps.foldl stitchPairPhase2 (runPhase1 m ps u fuel).1 with hm2
  have hrem2 : removedHalfedges m2 ps = removedHalfedges m ps :=
    removedHalfedges_congr m m2 ps e2o
  have h3 := phase3Fold ps m2 (e2h ▸ hhnd) (hrem2 ▸ hnd)
    (by intro h hh; rw [hrem2] at hh; rw [e2h]; exact hsub h hh)
  rcases h3 with ⟨l3, v3, o3, nd3, mem3⟩
  set m3 := ps.foldl stitchPairPhase3 m2 with hm3
  have hv := removeVertexFold ((runPhase1 m ps u fuel).2.2) m3 hdnd
    (by intro w hw; rw [v3, e2v]; exact hdsub w hw)
  rcases hv with ⟨v1, v2', v3'⟩
  have hrun : run_stitch_borders m ps u fuel
      = ((runPhase1 m ps u fuel).2.2).foldl Mesh.removeVertex m3 := rfl
  rw [hrun]
  refine ⟨?_, ?_, ?_⟩
  · rw [v1, l3, e2h]
  · rw [v3', v3, e2v]
  · intro h
    rw [v1, mem3 h, e2h, hrem2]

set_option maxHeartbeats 2000000 in
/-- C5 witness: on the two-triangle mesh with the single pair (3,9) the
surgery removes exactly one edge (two halfedges) and deletes the two merged
vertices. -/
theorem C5_count_conservation_witness :
    (run_stitch_borders meshT [(3, 9)] (buildUF meshT [(3, 9)]) 13).halfedges.length
        = meshT.halfedges.length - 2 * [((3 : H), (9 : H))].length ∧
    (run_stitch_borders meshT [(3, 9)] (buildUF meshT [(3, 9)]) 13).vertices.length
        = meshT.vertices.length
          - ((runPhase1 meshT [(3, 9)] (buildUF meshT [(3, 9)]) 13).2.2).length := by
  have h := C5_count_conservation meshT [(3, 9)] (buildUF meshT [(3, 9)]) 13
    (by decide) (by decide) (by decide) (by decide) (by decide)
  exact ⟨h.1, h.2.1⟩

theorem erodes_refl (m : Mesh) : erodes m m := ⟨rfl, fun _ hh => hh⟩

theorem erodes_trans {m m' m'' : Mesh} (h1 : erodes m m') (h2 : erodes m' m'') :
    erodes m m'' :=
  ⟨h2.1.trans h1.1, fun _ hx => h1.2 (h2.2 hx)⟩

theorem removeVertexFold_fields : ∀ (dels : List V) (m : Mesh),
    (dels.foldl Mesh.removeVertex m).halfedges = m.halfedges ∧
    (dels.foldl Mesh.removeVertex m).opp = m.opp := by
  intro dels
  induction dels with
  | nil => intro m; exact ⟨rfl, rfl⟩
  | cons v dels ih =>
    intro m
    rcases ih (m.removeVertex v) with ⟨h1, h2⟩
    exact ⟨by rw [List.foldl_cons, h1, removeVertex_halfedges],
      by rw [List.foldl_cons, h2, removeVertex_opp]⟩

theorem phase3Fold_erodes : ∀ (ps : List (H × H)) (m : Mesh),
    erodes m (ps.foldl stitchPairPhase3 m) := by
  intro ps
  induction ps with
  | nil => intro m; exact erodes_refl m
  | cons p ps ih =>
    intro m
    refine erodes_trans ?_ (ih (stitchPairPhase3 m p))
    rcases stitchPairPhase3_fields m p with ⟨h1, _, h3⟩
    refine ⟨h3, ?_⟩
    rw [h1]
    intro x hx
    exact List.mem_of_mem_erase (List.mem_of_mem_erase hx)

theorem run_stitch_borders_erodes (m : Mesh) (ps : List (H × H)) (u : UF)
    (fuel : Nat) : erodes m (run_stitch_borders m ps u fuel) := by
  have e1 : ((runPhase1 m ps u fuel).1).halfedges = m.halfedges ∧
      ((runPhase1 m ps u fuel).1).vertices = m.vertices ∧
      ((runPhase1 m ps u fuel).1).opp = m.opp :=
    phase1Fold_fields fuel ps (m, u, [])
  have e2 := phase2Fold_fields ps (runPhase1 m ps u fuel).1
  have e3 := phase3Fold_erodes ps
    (ps.foldl stitchPairPhase2 (runPhase1 m ps u fuel).1)
  have e4 := removeVertexFold_fields ((runPhase1 m ps u fuel).2.2)
    (ps.foldl stitchPairPhase3 (ps.foldl stitchPairPhase2 (runPhase1 m ps u fuel).1))
  have hrun : run_stitch_borders m ps u fuel
      = ((runPhase1 m ps u fuel).2.2).foldl Mesh.removeVertex
          (ps.foldl stitchPairPhase3
            (ps.foldl stitchPairPhase2 (runPhase1 m ps u fuel).1)) := rfl
  rw [hrun]
  refine erodes_trans (erodes_trans ?_ e3) ⟨e4.2, by rw [e4.1]; exact fun _ hh => hh⟩
  exact ⟨e2.2.2.trans e1.2.2, by rw [e2.1, e1.1]; exact fun _ hh => hh⟩

theorem stitch_borders_impl_erodes (m : Mesh) (ps : List (H × H)) :
    erodes m (stitch_borders_impl m ps) := by
  simp only [stitch_borders_impl]
  split
  · exact run_stitch_borders_erodes m ps _ _
  · exact run_stitch_borders_erodes m _ _ _

theorem stitchCycleFold_erodes (fuel : Nat) (st : Mesh × List H × Nat)
    (hstart : H) : erodes st.1 (stitchCycleFold fuel st hstart).1 := by
  simp only [stitchCycleFold]
  split
  · exact erodes_refl _
  · split
    · exact erodes_refl _
    · exact stitch_borders_impl_erodes _ _

theorem cycleFoldList_erodes (fuel : Nat) : ∀ (l : List H)
    (st : Mesh × List H × Nat),
    erodes st.1 (l.foldl (stitchCycleFold fuel) st).1 := by
  intro l
  induction l with
  | nil => intro st; exact erodes_refl _
  | cons x l ih =>
    intro st
    exact erodes_trans (stitchCycleFold_erodes fuel st x)
      (ih (stitchCycleFold fuel st x))

theorem stitch_boundary_cycle_erodes (m : Mesh) (h : H) :
    erodes m (stitch_boundary_cycle m h).1 := by
  unfold stitch_boundary_cycle
  exact cycleFoldList_erodes _ _ (m, [], 0)

theorem cyclesFoldList_erodes : ∀ (l : List H) (st : Mesh × Nat),
    erodes st.1 (l.foldl cyclesFoldStep st).1 := by
  intro l
  induction l with
  | nil => intro st; exact erodes_refl _
  | cons x l ih =>
    intro st
    exact erodes_trans (stitch_boundary_cycle_erodes st.1 x) (ih _)

theorem stitch_boundary_cycles_erodes (m : Mesh) :
    erodes m (stitch_boundary_cycles m).1 := by
  unfold stitch_boundary_cycles
  exact cyclesFoldList_erodes (extract_boundary_cycles m) (m, 0)

theorem stitch_borders_np_erodes (m : Mesh) : erodes m (stitch_borders_np m) := by
  unfold stitch_borders_np
  exact erodes_trans (stitch_boundary_cycles_erodes m)
    (erodes_trans (stitch_borders_impl_erodes _ _)
      (stitch_boundary_cycles_erodes _))

theorem oppInvolutive_of_erodes {m m' : Mesh} (he : erodes m m')
    (hinv : oppInvolutive m) : oppInvolutive m' := by
  intro h hh
  rw [he.1]
  exact hinv h (he.2 hh)

/-- C1 (amended): after any public stitching call — explicit pairs, a single
boundary cycle, all boundary cycles, or discovery — every surviving halfedge
`h` satisfies `opposite(opposite(h)) == h` (the `opposite` accessor is never
rewritten and edges are removed whole); however, the bound of at most 2
incident halfedges per undirected vertex pair does not hold in general, as
two coincident border edges may both survive the merge of their endpoints. -/
theorem C1_opposite_involution (m : Mesh) (ps : List (H × H)) (h : H)
    (hinv : oppInvolutive m) :
    oppInvolutive (stitch_borders_pairs m ps) ∧
    oppInvolutive (stitch_boundary_cycle m h).1 ∧
    oppInvolutive (stitch_boundary_cycles m).1 ∧
    oppInvolutive (stitch_borders_np m) :=
  ⟨oppInvolutive_of_erodes (stitch_borders_impl_erodes m ps) hinv,
   oppInvolutive_of_erodes (stitch_boundary_cycle_erodes m h) hinv,
   oppInvolutive_of_erodes (stitch_boundary_cycles_erodes m) hinv,
   oppInvolutive_of_erodes (stitch_borders_np_erodes m) hinv⟩

/-- C1 witness: the two-triangle mesh satisfies the involution invariant, and
the theorem instantiates on it with the discovered pair (3,9). -/
theorem C1_opposite_involution_witness :
    oppInvolutive meshT ∧
    (oppInvolutive (stitch_borders_pairs meshT [(3, 9)]) ∧
     oppInvolutive (stitch_boundary_cycle meshT 3).1 ∧
     oppInvolutive (stitch_boundary_cycles meshT).1 ∧
     oppInvolutive (stitch_borders_np meshT)) :=
  ⟨by decide, C1_opposite_involution meshT [(3, 9)] 3 (by decide)⟩

theorem insertNew_mem (l : List V) (w v : V) :
    v ∈ insertNew l w ↔ v ∈ l ∨ v = w := by
  unfold insertNew
  split
  · rename_i hw
    constructor
    · exact Or.inl
    · rintro (hv | hv)
      · exact hv
      · exact hv ▸ hw
  · simp [List.mem_append]

theorem markFold_mem (m : Mesh) : ∀ (B : List H) (uns : List V) (v : V),
    v ∈ B.foldl (fun u hd =>
        insertNew (insertNew u (m.source hd)) (m.target hd)) uns ↔
    v ∈ uns ∨ ∃ hd ∈ B, v = m.source hd ∨ v = m.target hd := by
  intro B
  induction B with
  | nil => intro uns v; simp
  | cons a B ih =>
    intro uns v
    rw [List.foldl_cons, ih]
    rw [insertNew_mem, insertNew_mem]
    simp only [List.mem_cons]
    constructor
    · rintro (((h | h) | h) | ⟨hd, hhd, hor⟩)
      · exact Or.inl h
      · exact Or.inr ⟨a, Or.inl rfl, Or.inl h⟩
      · exact Or.inr ⟨a, Or.inl rfl, Or.inr h⟩
      · exact Or.inr ⟨hd, Or.inr hhd, hor⟩
    · rintro (h | ⟨hd, (hhd | hhd), hor⟩)
      · exact Or.inl (Or.inl (Or.inl h))
      · subst hhd
        rcases hor with h | h
        · exact Or.inl (Or.inl (Or.inr h))
        · exact Or.inl (Or.inr h)
      · exact Or.inr ⟨hd, hhd, hor⟩

theorem impl_eq_keptPairs (m : Mesh) (ps : List (H × H)) :
    stitch_borders_impl m ps = run_stitch_borders m (keptPairs m ps)
      (buildUF m (keptPairs m ps)) (m.halfedges.length + 1) := by
  simp only [stitch_borders_impl, keptPairs]
  by_cases huns : unstitchable_vertices m ps = []
  · rw [if_pos huns, if_pos huns]
  · rw [if_neg huns, if_neg huns]

/-- C3 (amended): for every representative-pair key bucket, a bucket with
exactly one halfedge marks nothing; one with exactly two marks nothing iff
both halfedges lie on border *edges* (the halfedge or its opposite is a
border halfedge — not necessarily both halfedges themselves border); any
other bucket marks every source and target vertex of its halfedges
unstitchable.  Every candidate pair touching an unstitchable vertex is then
dropped and the union-find is rebuilt from scratch over the survivors. -/
theorem C3_manifold_filter :
    (∀ (m : Mesh) (uns : List V) (B : List H) (v : V),
      v ∈ markBucket m uns B ↔ v ∈ uns ∨
        (¬ (B.length = 1 ∨ (B.length = 2 ∧ m.is_border_edge (B.headD 0) ∧
            m.is_border_edge (B.getLastD 0))) ∧
         ∃ hd ∈ B, v = m.source hd ∨ v = m.target hd)) ∧
    (∀ (m : Mesh) (ps : List (H × H)),
      keptPairs m ps = if unstitchable_vertices m ps = [] then ps
        else ps.filter (fun p => decide (¬ touchesUnstitchable m
          (unstitchable_vertices m ps) p))) ∧
    (∀ (m : Mesh) (ps : List (H × H)),
      stitch_borders_impl m ps = run_stitch_borders m (keptPairs m ps)
        (buildUF m (keptPairs m ps)) (m.halfedges.length + 1)) := by
  refine ⟨?_, fun m ps => rfl, impl_eq_keptPairs⟩
  intro m uns B v
  match B with
  | [] =>
    simp only [markBucket]
    rw [if_neg (by simp)]
    simp
  | [x] =>
    simp only [markBucket]
    simp
  | a :: b :: rest =>
    simp only [markBucket]
    by_cases hc : (a :: b :: rest).length = 2 ∧
        m.is_border_edge ((a :: b :: rest).headD 0) ∧
        m.is_border_edge ((a :: b :: rest).getLastD 0)
    · rw [if_pos hc]
      have hnot : ¬ ((a :: b :: rest).length = 1 ∨
          ((a :: b :: rest).length = 2 ∧
            m.is_border_edge ((a :: b :: rest).headD 0) ∧
            m.is_border_edge ((a :: b :: rest).getLastD 0))) → False := by
        intro hn
        exact hn (Or.inr hc)
      constructor
      · exact fun h => Or.inl h
      · rintro (h | ⟨hcond, _⟩)
        · exact h
        · exact absurd (Or.inr hc) hcond
    · rw [if_neg hc]
      rw [markFold_mem]
      have hlen : (a :: b :: rest).length ≠ 1 := by simp
      constructor
      · rintro (h | h)
        · exact Or.inl h
        · exact Or.inr ⟨fun hk => (hk.resolve_left hlen |> hc), h⟩
      · rintro (h | ⟨_, h⟩)
        · exact Or.inl h
        · exact Or.inr h

theorem stitchCycleFold_count_le (fuel : Nat) (st : Mesh × List H × Nat)
    (hstart : H) : st.2.2 ≤ (stitchCycleFold fuel st hstart).2.2 := by
  simp only [stitchCycleFold]
  split
  · exact Nat.le_refl _
  · split
    · exact Nat.le_refl _
    · exact Nat.le_add_right _ _

theorem cycleFoldList_count_le (fuel : Nat) : ∀ (l : List H)
    (st : Mesh × List H × Nat),
    st.2.2 ≤ (l.foldl (stitchCycleFold fuel) st).2.2 := by
  intro l
  induction l with
  | nil => intro st; exact Nat.le_refl _
  | cons x l ih =>
    intro st
    exact Nat.le_trans (stitchCycleFold_count_le fuel st x)
      (ih (stitchCycleFold fuel st x))

theorem stitchCycleFold_zero (fuel : Nat) (st : Mesh × List H × Nat)
    (hstart : H) (h : (stitchCycleFold fuel st hstart).2.2 = st.2.2) :
    (stitchCycleFold fuel st hstart).1 = st.1 := by
  revert h
  simp only [stitchCycleFold]
  split
  · intro _; rfl
  · split
    · intro _; rfl
    · rename_i hne
      intro h
      exfalso
      simp only at h
      exact hne (List.length_eq_zero.mp (by omega))

theorem cycleFoldList_zero (fuel : Nat) : ∀ (l : List H)
    (st : Mesh × List H × Nat),
    (l.foldl (stitchCycleFold fuel) st).2.2 = st.2.2 →
    (l.foldl (stitchCycleFold fuel) st).1 = st.1 := by
  intro l
  induction l with
  | nil => intro st _; rfl
  | cons x l ih =>
    intro st hz
    rw [List.foldl_cons] at hz ⊢
    have hle1 := stitchCycleFold_count_le fuel st x
    have hle2 := cycleFoldList_count_le fuel l (stitchCycleFold fuel st x)
    have heq : (stitchCycleFold fuel st x).2.2 = st.2.2 := by omega
    rw [ih _ (by omega), stitchCycleFold_zero fuel st x heq]

theorem stitch_boundary_cycle_zero (m : Mesh) (h : H)
    (hz : (stitch_boundary_cycle m h).2 = 0) :
    (stitch_boundary_cycle m h).1 = m := by
  simp only [stitch_boundary_cycle] at hz ⊢
  exact cycleFoldList_zero _ _ (m, [], 0) hz

theorem cyclesFold_count_le : ∀ (l : List H) (st : Mesh × Nat),
    st.2 ≤ (l.foldl cyclesFoldStep st).2 := by
  intro l
  induction l with
  | nil => intro st; exact Nat.le_refl _
  | cons x l ih =>
    intro st
    rw [List.foldl_cons]
    refine Nat.le_trans ?_ (ih (cyclesFoldStep st x))
    exact Nat.le_add_right st.2 (stitch_boundary_cycle st.1 x).2

theorem cyclesFold_zero : ∀ (l : List H) (st : Mesh × Nat),
    (l.foldl cyclesFoldStep st).2 = st.2 →
    (l.foldl cyclesFoldStep st).1 = st.1 := by
  intro l
  induction l with
  | nil => intro st _; rfl
  | cons x l ih =>
    intro st hz
    rw [List.foldl_cons] at hz ⊢
    have hle := cyclesFold_count_le l (cyclesFoldStep st x)
    have hsteple : st.2 ≤ (cyclesFoldStep st x).2 :=
      Nat.le_add_right st.2 (stitch_boundary_cycle st.1 x).2
    have hstepeq : (cyclesFoldStep st x).2
        = st.2 + (stitch_boundary_cycle st.1 x).2 := rfl
    have hcz : (stitch_boundary_cycle st.1 x).2 = 0 := by omega
    have hms := stitch_boundary_cycle_zero st.1 x hcz
    have hpair : cyclesFoldStep st x = (st.1, st.2) := by
      show ((stitch_boundary_cycle st.1 x).1,
        st.2 + (stitch_boundary_cycle st.1 x).2) = (st.1, st.2)
      rw [hms, hcz, Nat.add_zero]
    rw [hpair] at hz ⊢
    exact ih (st.1, st.2) hz

theorem stitch_boundary_cycles_zero (m : Mesh)
    (hz : (stitch_boundary_cycles m).2 = 0) :
    (stitch_boundary_cycles m).1 = m := by
  simp only [stitch_boundary_cycles] at hz ⊢
  exact cyclesFold_zero _ (m, 0) hz

theorem impl_zero_identity (m : Mesh) (ps : List (H × H))
    (h : implStitchedCount m ps = 0) : stitch_borders_impl m ps = m := by
  have hk : keptPairs m ps = [] := List.length_eq_zero.mp h
  rw [impl_eq_keptPairs, hk]
  rfl

/-- C9 (amended): stitching twice is not in general the same as stitching
once — a second discovery call can stitch further pairs (see the
counterexample) — but whenever a discovery call stitches zero pairs it
leaves the mesh completely unchanged, so re-application changes nothing once
a call stitches nothing. -/
theorem C9_zero_stitch_identity (m : Mesh)
    (h : stitchBordersNPCount m = 0) : stitch_borders_np m = m := by
  simp only [stitchBordersNPCount] at h
  have h1 : (stitch_boundary_cycles m).2 = 0 := by omega
  have h2 : implStitchedCount (stitch_boundary_cycles m).1
      (collect_duplicated_stitchable_boundary_edges
        (stitch_boundary_cycles m).1) = 0 := by omega
  have h3 : (stitch_boundary_cycles
      (stitch_borders_pairs (stitch_boundary_cycles m).1
        (collect_duplicated_stitchable_boundary_edges
          (stitch_boundary_cycles m).1))).2 = 0 := by omega
  have e1 : (stitch_boundary_cycles m).1 = m := stitch_boundary_cycles_zero m h1
  have e2 : stitch_borders_pairs (stitch_boundary_cycles m).1
      (collect_duplicated_stitchable_boundary_edges
        (stitch_boundary_cycles m).1) = m := by
    have := impl_zero_identity (stitch_boundary_cycles m).1
      (collect_duplicated_stitchable_boundary_edges
        (stitch_boundary_cycles m).1) h2
    rw [stitch_borders_pairs, this, e1]
  have e3 := stitch_boundary_cycles_zero _ h3
  simp only [stitch_borders_np]
  rw [e3, e2]

/-- C9 witness: the empty mesh stitches zero pairs and is left unchanged. -/
theorem C9_zero_stitch_identity_witness :
    stitchBordersNPCount meshE = 0 ∧ stitch_borders_np meshE = meshE :=
  ⟨by decide, C9_zero_stitch_identity meshE (by decide)⟩

/-! ### Association-list and occurrence lemmas for the collector proof -/

theorem alookup_append_some {α β : Type} [DecidableEq α] :
    ∀ (l l' : List (α × β)) (k : α) (v : β),
    alookup l k = some v → alookup (l ++ l') k = some v := by
  intro l
  induction l with
  | nil => intro l' k v h; simp [alookup] at h
  | cons x t ih =>
    intro l' k v h
    rw [List.cons_append]
    rcases x with ⟨xk, xv⟩
    simp only [alookup] at h ⊢
    by_cases hk : xk = k
    · rw [if_pos hk] at h ⊢; exact h
    · rw [if_neg hk] at h ⊢; exact ih l' k v h

theorem alookup_append_none {α β : Type} [DecidableEq α] :
    ∀ (l l' : List (α × β)) (k : α),
    alookup l k = none → alookup (l ++ l') k = alookup l' k := by
  intro l
  induction l with
  | nil => intro l' k _; rfl
  | cons x t ih =>
    intro l' k h
    rw [List.cons_append]
    rcases x with ⟨xk, xv⟩
    simp only [alookup] at h ⊢
    by_cases hk : xk = k
    · rw [if_pos hk] at h; exact absurd h (by simp)
    · rw [if_neg hk] at h ⊢; exact ih l' k h

theorem alookup_aset_self {α β : Type} [DecidableEq α] :
    ∀ (l : List (α × β)) (k : α) (v w : β),
    alookup l k = some w → alookup (aset l k v) k = some v := by
  intro l
  induction l with
  | nil => intro k v w h; simp [alookup] at h
  | cons x t ih =>
    intro k v w h
    rcases x with ⟨xk, xv⟩
    simp only [alookup, aset] at h ⊢
    by_cases hk : xk = k
    · rw [if_pos hk] at h
      rw [if_pos hk]
      simp only [alookup]
      rw [if_pos hk]
    · rw [if_neg hk] at h
      rw [if_neg hk]
      simp only [alookup]
      rw [if_neg hk]
      exact ih k v w h

theorem alookup_aset_ne {α β : Type} [DecidableEq α] :
    ∀ (l : List (α × β)) (k k' : α) (v : β), k' ≠ k →
    alookup (aset l k v) k' = alookup l k' := by
  intro l
  induction l with
  | nil => intro k k' v _; rfl
  | cons x t ih =>
    intro k k' v hne
    rcases x with ⟨xk, xv⟩
    simp only [aset]
    by_cases hk : xk = k
    · rw [if_pos hk]
      simp only [alookup]
      rw [if_neg (by rw [hk]; exact fun hc => hne hc.symm),
        if_neg (by rw [hk]; exact fun hc => hne hc.symm)]
    · rw [if_neg hk]
      simp only [alookup]
      by_cases hx : xk = k'
      · rw [if_pos hx, if_pos hx]
      · rw [if_neg hx, if_neg hx]
        exact ih k k' v hne

theorem occs_append_single (m : Mesh) (K : Pt × Pt) (l : List H) (he : H) :
    occs m K (l ++ [he])
      = occs m K l ++ (if hkey m he = K then [he] else []) := by
  simp only [occs, List.filter_append]
  congr 1
  by_cases hk : hkey m he = K
  · rw [if_pos hk]
    simp [hk]
  · rw [if_neg hk]
    simp [hk]

theorem mem_occs_key (m : Mesh) (K : Pt × Pt) (l : List H) (x : H)
    (hx : x ∈ occs m K l) : hkey m x = K := by
  simp only [occs, List.mem_filter] at hx
  exact of_decide_eq_true hx.2

theorem list_eq_pair {α : Type} : ∀ (l : List α) (a b : α), l.length = 2 →
    l.head? = some a → l[1]? = some b → l = [a, b] := by
  intro l a b hlen hh h1
  match l with
  | [x, y] =>
    simp at hh h1
    rw [hh, h1]

theorem list_eq_single {α : Type} : ∀ (l : List α) (a : α), l.length = 1 →
    l.head? = some a → l = [a] := by
  intro l a hlen hh
  match l with
  | [x] =>
    simp at hh
    rw [hh]

theorem mem_zip_iff {α β : Type} : ∀ (l₁ : List α) (l₂ : List β) (a : α) (b : β),
    (a, b) ∈ l₁.zip l₂ ↔ ∃ i : Nat, l₁[i]? = some a ∧ l₂[i]? = some b := by
  intro l₁
  induction l₁ with
  | nil => intro l₂ a b; simp
  | cons x t ih =>
    intro l₂ a b
    cases l₂ with
    | nil => simp
    | cons y t₂ =>
      simp only [List.zip_cons_cons, List.mem_cons]
      constructor
      · rintro (h | h)
        · refine ⟨0, ?_, ?_⟩ <;> simp [Prod.ext_iff] at h ⊢ <;> tauto
        · rcases (ih t₂ a b).mp h with ⟨i, h1, h2⟩
          exact ⟨i + 1, by simpa using h1, by simpa using h2⟩
      · rintro ⟨i, h1, h2⟩
        cases i with
        | zero =>
          simp at h1 h2
          exact Or.inl (by rw [h1, h2])
        | succ j =>
          simp at h1 h2
          exact Or.inr ((ih t₂ a b).mpr ⟨j, h1, h2⟩)

theorem outputPairs_mem (st : CollectSt) (p : H × H) :
    p ∈ outputPairs st ↔
    ∃ i : Nat, st.pairs[i]? = some p ∧ st.mani[i]? = some true := by
  simp only [outputPairs, List.mem_filterMap]
  constructor
  · rintro ⟨x, hx, hfx⟩
    rcases x with ⟨q, flag⟩
    cases flag with
    | false => simp at hfx
    | true =>
      simp only [if_pos, Option.some.injEq] at hfx
      rcases (mem_zip_iff st.pairs st.mani q true).mp hx with ⟨i, h1, h2⟩
      exact ⟨i, by rw [← hfx]; exact h1, h2⟩
  · rintro ⟨i, h1, h2⟩
    refine ⟨(p, true), ?_, by simp⟩
    exact (mem_zip_iff st.pairs st.mani p true).mpr ⟨i, h1, h2⟩

theorem head?_append_some {α : Type} (l l' : List α) (a : α)
    (h : l.head? = some a) : (l ++ l').head? = some a := by
  cases l with
  | nil => simp at h
  | cons x t => simpa using h

theorem collectInv_init (m : Mesh) : CollectInv m [] ⟨[], [], []⟩ := by
  refine ⟨rfl, fun K _ => rfl, ?_, ?_, ?_⟩
  · intro K fh mult pid h
    simp [alookup] at h
  · intro i hi
    simp at hi
  · intro K K' fh fh' mult mult' pid pid' h
    simp [alookup] at h

theorem collectInv_step_none (m : Mesh) (L : List H) (st : CollectSt) (he : H)
    (inv : CollectInv m L st)
    (hn : alookup st.bmap (hkey m he) = none) :
    CollectInv m (L ++ [he]) (fill_pairs m he st) := by
  obtain ⟨hlen, hnone, hsome, hsurj, hinj⟩ := inv
  have hocc0 : occs m (hkey m he) L = [] := hnone _ hn
  have hfp : fill_pairs m he st
      = { st with bmap := st.bmap ++ [(hkey m he, (he, 1, 0))] } := by
    simp only [fill_pairs, hn]
  rw [hfp]
  have hlook : ∀ K, alookup (st.bmap ++ [(hkey m he, (he, 1, 0))]) K
      = match alookup st.bmap K with
        | some w => some w
        | none => if hkey m he = K then some (he, 1, 0) else none := by
    intro K
    cases hb : alookup st.bmap K with
    | some w => exact alookup_append_some _ _ _ _ hb
    | none =>
      rw [alookup_append_none _ _ _ hb]
      rfl
  refine ⟨hlen, ?_, ?_, ?_, ?_⟩
  · intro K hK
    rw [hlook K] at hK
    rw [occs_append_single]
    cases hb : alookup st.bmap K with
    | some w => rw [hb] at hK; simp at hK
    | none =>
      rw [hb] at hK
      simp only at hK
      by_cases hkk : hkey m he = K
      · rw [if_pos hkk] at hK; simp at hK
      · rw [if_neg hkk, hnone K hb]
        rfl
  · intro K fh mult pid hK
    rw [hlook K] at hK
    rw [occs_append_single]
    cases hb : alookup st.bmap K with
    | some w =>
      rw [hb] at hK
      simp only [Option.some.injEq] at hK
      subst hK
      obtain ⟨h1, h2, h3, h4⟩ := hsome K fh mult pid hb
      by_cases hkk : hkey m he = K
      · rw [← hkk] at hb
        rw [hn] at hb
        simp at hb
      · rw [if_neg hkk, List.append_nil]
        refine ⟨h1, h2, h3, ?_⟩
        intro hge
        obtain ⟨hp, s, hs1, hs2, hs3⟩ := h4 hge
        exact ⟨hp, s, hs1, hs2, hs3⟩
    | none =>
      rw [hb] at hK
      simp only at hK
      by_cases hkk : hkey m he = K
      · rw [if_pos hkk] at hK
        simp only [Option.some.injEq, Prod.mk.injEq] at hK
        obtain ⟨hfh, hmult, hpid⟩ := hK
        subst hfh
        subst hmult
        subst hpid
        rw [if_pos hkk]
        rw [← hkk, hocc0]
        refine ⟨rfl, rfl, Nat.le_refl 1, ?_⟩
        intro hge
        omega
      · rw [if_neg hkk] at hK
        simp at hK
  · intro i hi
    obtain ⟨K, fh, mult, hK, hge⟩ := hsurj i hi
    exact ⟨K, fh, mult, alookup_append_some _ _ _ _ hK, hge⟩
  · intro K K' fh fh' mult mult' pid pid' hK hK' hge hge' hpp
    rw [hlook K] at hK
    rw [hlook K'] at hK'
    cases hb : alookup st.bmap K with
    | some w =>
      rw [hb] at hK
      simp only [Option.some.injEq] at hK
      subst hK
      cases hb' : alookup st.bmap K' with
      | some w' =>
        rw [hb'] at hK'
        simp only [Option.some.injEq] at hK'
        subst hK'
        exact hinj K K' fh fh' mult mult' pid pid' hb hb' hge hge' hpp
      | none =>
        rw [hb'] at hK'
        simp only at hK'
        by_cases hkk : hkey m he = K'
        · rw [if_pos hkk] at hK'
          simp only [Option.some.injEq, Prod.mk.injEq] at hK'
          obtain ⟨_, hm, _⟩ := hK'
          omega
        · rw [if_neg hkk] at hK'
          simp at hK'
    | none =>
      rw [hb] at hK
      simp only at hK
      by_cases hkk : hkey m he = K
      · rw [if_pos hkk] at hK
        simp only [Option.some.injEq, Prod.mk.injEq] at hK
        obtain ⟨_, hm, _⟩ := hK
        omega
      · rw [if_neg hkk] at hK
        simp at hK

theorem getElem?_append_left {α : Type} (l₁ l₂ : List α) (n : Nat)
    (h : n < l₁.length) : (l₁ ++ l₂)[n]? = l₁[n]? := by
  rw [List.getElem?_append]
  rw [if_pos h]

theorem collectInv_step_second (m : Mesh) (L : List H) (st : CollectSt)
    (he fh : H) (pid : Nat)
    (inv : CollectInv m L st)
    (hl : alookup st.bmap (hkey m he) = some (fh, 1, pid)) :
    CollectInv m (L ++ [he]) (fill_pairs m he st) := by
  obtain ⟨hlen, hnone, hsome, hsurj, hinj⟩ := inv
  obtain ⟨hmult, hhead, hge1, _⟩ := hsome _ fh 1 pid hl
  have hocc1 : occs m (hkey m he) L = [fh] :=
    list_eq_single _ fh hmult.symm hhead
  have hfp : fill_pairs m he st
      = ⟨aset st.bmap (hkey m he) (fh, 2, st.pairs.length),
         st.pairs ++ [(fh, he)],
         st.mani ++ [decide (dirMatch m fh he)]⟩ := by
    simp [fill_pairs, hl]
  rw [hfp]
  have hoccN : occs m (hkey m he) (L ++ [he]) = [fh, he] := by
    rw [occs_append_single, hocc1, if_pos rfl]
    rfl
  refine ⟨by simp [hlen], ?_, ?_, ?_, ?_⟩
  · intro K hK
    by_cases hkk : K = hkey m he
    · subst hkk
      rw [alookup_aset_self st.bmap (hkey m he) _ _ hl] at hK
      simp at hK
    · rw [alookup_aset_ne st.bmap _ K _ hkk] at hK
      rw [occs_append_single, hnone K hK,
        if_neg (fun hc => hkk hc.symm)]
      rfl
  · intro K fh' mult' pid' hK
    by_cases hkk : K = hkey m he
    · subst hkk
      rw [alookup_aset_self st.bmap (hkey m he) _ _ hl] at hK
      simp only [Option.some.injEq, Prod.mk.injEq] at hK
      obtain ⟨h1, h2, h3⟩ := hK
      subst h1; subst h2; subst h3
      rw [hoccN]
      refine ⟨rfl, rfl, by omega, ?_⟩
      intro _
      refine ⟨by simp, he, rfl, ?_, ?_⟩
      · rw [List.getElem?_concat_length]
      · rw [hlen, List.getElem?_concat_length]
        simp
    · rw [alookup_aset_ne st.bmap _ K _ hkk] at hK
      obtain ⟨h1, h2, h3, h4⟩ := hsome K fh' mult' pid' hK
      have hocck : occs m K (L ++ [he]) = occs m K L := by
        rw [occs_append_single, if_neg (fun hc => hkk hc.symm)]
        exact List.append_nil _
      rw [hocck]
      refine ⟨h1, h2, h3, ?_⟩
      intro hge
      obtain ⟨hp, s, hs1, hs2, hs3⟩ := h4 hge
      refine ⟨by simp; omega, s, hs1, ?_, ?_⟩
      · rw [getElem?_append_left st.pairs [(fh, he)] pid' hp]
        exact hs2
      · rw [getElem?_append_left st.mani [decide (dirMatch m fh he)] pid'
          (hlen ▸ hp)]
        exact hs3
  · intro i hi
    simp only [List.length_append, List.length_cons, List.length_nil] at hi
    by_cases hilt : i < st.pairs.length
    · obtain ⟨K, fh', mult', hK, hge⟩ := hsurj i hilt
      have hkk : K ≠ hkey m he := by
        intro hc
        subst hc
        rw [hK] at hl
        simp only [Option.some.injEq, Prod.mk.injEq] at hl
        omega
      exact ⟨K, fh', mult', by rw [alookup_aset_ne st.bmap _ K _ hkk]; exact hK,
        hge⟩
    · have hieq : i = st.pairs.length := by omega
      subst hieq
      exact ⟨hkey m he, fh, 2,
        alookup_aset_self st.bmap _ _ _ hl, by omega⟩
  · intro K K' fh1 fh2 mult1 mult2 pid1 pid2 hK hK' hge hge' hpp
    by_cases hkk : K = hkey m he
    · subst hkk
      rw [alookup_aset_self st.bmap (hkey m he) _ _ hl] at hK
      simp only [Option.some.injEq, Prod.mk.injEq] at hK
      obtain ⟨_, _, hp1⟩ := hK
      by_cases hkk' : K' = hkey m he
      · exact hkk'.symm
      · rw [alookup_aset_ne st.bmap _ K' _ hkk'] at hK'
        obtain ⟨_, _, _, h4⟩ := hsome K' fh2 mult2 pid2 hK'
        obtain ⟨hp2, _⟩ := h4 hge'
        omega
    · rw [alookup_aset_ne st.bmap _ K _ hkk] at hK
      by_cases hkk' : K' = hkey m he
      · subst hkk'
        rw [alookup_aset_self st.bmap (hkey m he) _ _ hl] at hK'
        simp only [Option.some.injEq, Prod.mk.injEq] at hK'
        obtain ⟨_, _, hp2⟩ := hK'
        obtain ⟨_, _, _, h4⟩ := hsome K fh1 mult1 pid1 hK
        obtain ⟨hp1, _⟩ := h4 hge
        omega
      · rw [alookup_aset_ne st.bmap _ K' _ hkk'] at hK'
        exact hinj K K' fh1 fh2 mult1 mult2 pid1 pid2 hK hK' hge hge' hpp

theorem getElem?_set_self' {α : Type} (l : List α) (i : Nat) (a : α)
    (h : i < l.length) : (l.set i a)[i]? = some a := by
  rw [List.getElem?_set_self']
  rw [List.getElem?_eq_getElem h]
  rfl

theorem getElem?_set_ne' {α : Type} (l : List α) (i j : Nat) (a : α)
    (h : i ≠ j) : (l.set i a)[j]? = l[j]? := by
  rw [List.getElem?_set_ne h]

theorem collectInv_step_third (m : Mesh) (L : List H) (st : CollectSt)
    (he fh : H) (mult pid : Nat)
    (inv : CollectInv m L st)
    (hl : alookup st.bmap (hkey m he) = some (fh, mult, pid))
    (hm2 : 2 ≤ mult) :
    CollectInv m (L ++ [he]) (fill_pairs m he st) := by
  obtain ⟨hlen, hnone, hsome, hsurj, hinj⟩ := inv
  obtain ⟨hmult, hhead, hge1, hrest⟩ := hsome _ fh mult pid hl
  obtain ⟨hpidlt, s, hs1, hs2, hs3⟩ := hrest hm2
  have hfp : fill_pairs m he st
      = ⟨aset st.bmap (hkey m he) (fh, mult + 1, pid),
         st.pairs, st.mani.set pid false⟩ := by
    simp only [fill_pairs, hl]
    rw [if_neg (by omega)]
  rw [hfp]
  have hoccN : occs m (hkey m he) (L ++ [he]) = occs m (hkey m he) L ++ [he] := by
    rw [occs_append_single, if_pos rfl]
  refine ⟨by simp [hlen], ?_, ?_, ?_, ?_⟩
  · intro K hK
    by_cases hkk : K = hkey m he
    · subst hkk
      rw [alookup_aset_self st.bmap (hkey m he) _ _ hl] at hK
      simp at hK
    · rw [alookup_aset_ne st.bmap _ K _ hkk] at hK
      rw [occs_append_single, hnone K hK, if_neg (fun hc => hkk hc.symm)]
      rfl
  · intro K fh' mult' pid' hK
    by_cases hkk : K = hkey m he
    · subst hkk
      rw [alookup_aset_self st.bmap (hkey m he) _ _ hl] at hK
      simp only [Option.some.injEq, Prod.mk.injEq] at hK
      obtain ⟨h1, h2, h3⟩ := hK
      subst h1; subst h2; subst h3
      rw [hoccN]
      refine ⟨by simp [← hmult], head?_append_some _ _ _ hhead, by omega, ?_⟩
      intro _
      refine ⟨hpidlt, s, ?_, hs2, ?_⟩
      · rw [getElem?_append_left _ _ 1 (by omega)]
        exact hs1
      · rw [getElem?_set_self' st.mani pid false (by omega)]
        have hdec : decide (mult + 1 = 2) = false := by
          apply decide_eq_false
          omega
        rw [hdec, Bool.and_false]
    · rw [alookup_aset_ne st.bmap _ K _ hkk] at hK
      obtain ⟨h1, h2, h3, h4⟩ := hsome K fh' mult' pid' hK
      have hocck : occs m K (L ++ [he]) = occs m K L := by
        rw [occs_append_single, if_neg (fun hc => hkk hc.symm)]
        exact List.append_nil _
      rw [hocck]
      refine ⟨h1, h2, h3, ?_⟩
      intro hge
      obtain ⟨hp, s', hs1', hs2', hs3'⟩ := h4 hge
      have hpidne : pid' ≠ pid := by
        intro hc
        exact hkk (hinj K (hkey m he) fh' fh mult' mult pid' pid hK hl hge hm2 hc)
      refine ⟨hp, s', hs1', hs2', ?_⟩
      rw [getElem?_set_ne' st.mani pid pid' false (fun hc => hpidne hc.symm)]
      exact hs3'
  · intro i hi
    obtain ⟨K, fh', mult', hK, hge⟩ := hsurj i hi
    by_cases hkk : K = hkey m he
    · subst hkk
      rw [hK] at hl
      simp only [Option.some.injEq, Prod.mk.injEq] at hl
      obtain ⟨he1, he2, he3⟩ := hl
      exact ⟨hkey m he, fh, mult + 1, by
        rw [alookup_aset_self st.bmap (hkey m he) _ _ hK, he3], by omega⟩
    · exact ⟨K, fh', mult', by
        rw [alookup_aset_ne st.bmap _ K _ hkk]; exact hK, hge⟩
  · intro K K' fh1 fh2 mult1 mult2 pid1 pid2 hK hK' hge hge' hpp
    by_cases hkk : K = hkey m he
    · subst hkk
      rw [alookup_aset_self st.bmap (hkey m he) _ _ hl] at hK
      simp only [Option.some.injEq, Prod.mk.injEq] at hK
      obtain ⟨hq1, hq2, hq3⟩ := hK
      by_cases hkk' : K' = hkey m he
      · exact hkk'.symm
      · rw [alookup_aset_ne st.bmap _ K' _ hkk'] at hK'
        exact absurd (hinj (hkey m he) K' fh fh2 mult mult2 pid pid2 hl hK'
          hm2 hge' (by omega)).symm hkk'
    · rw [alookup_aset_ne st.bmap _ K _ hkk] at hK
      by_cases hkk' : K' = hkey m he
      · subst hkk'
        rw [alookup_aset_self st.bmap (hkey m he) _ _ hl] at hK'
        simp only [Option.some.injEq, Prod.mk.injEq] at hK'
        obtain ⟨hq1, hq2, hq3⟩ := hK'
        exact hinj K (hkey m he) fh1 fh mult1 mult pid1 pid hK hl hge hm2
          (by omega)
      · rw [alookup_aset_ne st.bmap _ K' _ hkk'] at hK'
        exact hinj K K' fh1 fh2 mult1 mult2 pid1 pid2 hK hK' hge hge' hpp

theorem collectInv_step (m : Mesh) (L : List H) (st : CollectSt) (he : H)
    (inv : CollectInv m L st) :
    CollectInv m (L ++ [he]) (fill_pairs m he st) := by
  cases hl : alookup st.bmap (hkey m he) with
  | none => exact collectInv_step_none m L st he inv hl
  | some e =>
    rcases e with ⟨fh, mult, pid⟩
    by_cases hm : mult = 1
    · subst hm
      exact collectInv_step_second m L st he fh pid inv hl
    · have hge1 : 1 ≤ mult := (inv.2.2.1 _ fh mult pid hl).2.2.1
      exact collectInv_step_third m L st he fh mult pid inv hl (by omega)

theorem collectInv_all (m : Mesh) (L : List H) :
    CollectInv m L (collectState m L) := by
  induction L using List.reverseRecOn with
  | nil => exact collectInv_init m
  | append_singleton l a ih =>
    have hfold : collectState m (l ++ [a]) = fill_pairs m a (collectState m l) := by
      simp [collectState, List.foldl_append]
    rw [hfold]
    exact collectInv_step m l (collectState m l) a ih

/-- C2: in non-per-component mode the Border Pair Collector outputs exactly
those pairs `(h1, h2)` such that `h1` and `h2` are the first and second
border halfedges encountered with the same orientation-independent
endpoint-coordinate key, the key occurs exactly twice among all border
halfedges (the occurrence list of the key is exactly `[h1, h2]`), and the
full directional match holds; a pair whose key occurs a third time, or whose
direction check fails, is never output. -/
theorem C2_collector_characterization (m : Mesh) (p : H × H) :
    p ∈ collect_duplicated_stitchable_boundary_edges m ↔
    (occs m (hkey m p.1) (borderHalfedges m) = [p.1, p.2] ∧
      dirMatch m p.1 p.2) := by
  obtain ⟨hlen, hnone, hsome, hsurj, hinj⟩ :=
    collectInv_all m (borderHalfedges m)
  show p ∈ outputPairs (collectState m (borderHalfedges m)) ↔ _
  rw [outputPairs_mem]
  constructor
  · rintro ⟨i, hp, hmtrue⟩
    have hilt : i < (collectState m (borderHalfedges m)).pairs.length := by
      by_contra hc
      rw [List.getElem?_eq_none (by omega)] at hp
      exact Option.noConfusion hp
    obtain ⟨K, fh, mult, hK, hge⟩ := hsurj i hilt
    obtain ⟨h1, h2, _, h4⟩ := hsome K fh mult i hK
    obtain ⟨_, s, hs1, hs2, hs3⟩ := h4 hge
    have hps : p = (fh, s) := by
      rw [hp] at hs2
      exact Option.some.inj hs2
    have hb : (decide (dirMatch m fh s) && decide (mult = 2)) = true := by
      rw [hmtrue] at hs3
      exact (Option.some.inj hs3).symm
    rw [Bool.and_eq_true] at hb
    have hm2 : mult = 2 := of_decide_eq_true hb.2
    have hdir : dirMatch m fh s := of_decide_eq_true hb.1
    have hocc : occs m K (borderHalfedges m) = [fh, s] :=
      list_eq_pair _ _ _ (by omega) h2 hs1
    have hk : hkey m fh = K := by
      apply mem_occs_key m K (borderHalfedges m) fh
      rw [hocc]
      simp
    subst hps
    exact ⟨by rw [show (fh, s).1 = fh from rfl, hk, hocc], hdir⟩
  · rintro ⟨hocc, hdir⟩
    cases hK : alookup (collectState m (borderHalfedges m)).bmap (hkey m p.1) with
    | none =>
      have hemp := hnone _ hK
      rw [hocc] at hemp
      exact absurd hemp (by simp)
    | some e =>
      rcases e with ⟨fh, mult, pid⟩
      obtain ⟨h1, h2, _, h4⟩ := hsome _ fh mult pid hK
      rw [hocc] at h1 h2
      have hm2 : mult = 2 := by simpa using h1
      have hfh : fh = p.1 := by
        have := h2
        simp at this
        exact this.symm
      obtain ⟨_, s, hs1, hs2, hs3⟩ := h4 (by omega)
      rw [hocc] at hs1
      have hs : s = p.2 := by
        have := hs1
        simp at this
        exact this.symm
      refine ⟨pid, ?_, ?_⟩
      · rw [hs2, hfh, hs]
      · rw [hs3, hfh, hs, hm2]
        have hd1 : decide (dirMatch m p.1 p.2) = true := decide_eq_true hdir
        rw [hd1]
        rfl

end StitchBorders
